import Mathlib

/-!
Verification development for the copilot-api gateway.

The repository exposes two chat-completion HTTP surfaces (an OpenAI-shape
one, `src/routes/chat-completions/handler.ts`, and an Anthropic-shape one,
`src/routes/messages/handler.ts`) in front of one upstream completion
provider.  This file gives a shallow embedding of the two completion
handlers and of the streaming translation engine, and proves the frozen
claims about them.

The stream translator `translateChunkToAnthropicEvents` and the request /
response translators are imported by the handlers from
`./stream-translation` and `./non-stream-translation`, files that are not
part of the available sources; those components are modelled from the
specification (spec sections 3 and 4.3), as marked on each definition.
Everything else is translated directly from the handler sources.
-/

namespace CopilotApi

/-- Usage record of the OpenAI wire shape: prompt- and completion-token
counts, as carried by the `usage` field of responses and chunks. -/
structure Usage where
  prompt_tokens : Nat
  completion_tokens : Nat
deriving Repr, DecidableEq

/-- One partial tool-call fragment carried by a chunk delta: keyed by a
tool-call index, with the call identifier and function name supplied on
first appearance, and a fragment of JSON-encoded argument text.
Modelled from the spec: ChatChunk carries "partial tool-call fragments
keyed by a call index and accompanied by an optional call identifier and
function name on first appearance" (spec section 3). -/
structure ToolCallFragment where
  index : Nat
  id : Option String
  name : Option String
  arguments : String
deriving Repr, DecidableEq

/-- The partial delta of one streaming chunk: an optional text fragment
and a (possibly empty) list of partial tool-call fragments.
Modelled from the spec: "an optional partial delta (text fragment and/or
partial tool-call fragments ...)" (spec section 3). -/
structure ChunkDelta where
  content : Option String
  tool_calls : List ToolCallFragment
deriving Repr, DecidableEq

/-- One increment of a streaming response (OpenAI shape), as consumed by
the Anthropic-surface handler after `JSON.parse(rawEvent.data) as
ChatCompletionChunk`.  Modelled from the spec: "model identifier, an
optional partial delta ..., an optional finish reason, and an optional
usage record" (spec section 3); the message identifier is carried so that
`message_start` can build its skeleton message. -/
structure ChatCompletionChunk where
  id : String
  model : String
  delta : Option ChunkDelta
  finish_reason : Option String
  usage : Option Usage
deriving Repr, DecidableEq

/-- The block type/metadata carried by a `content_block_start` event:
a text block, or a tool-use block with its call id and tool name. -/
inductive BlockKind where
  | text
  | tool_use (id : String) (name : String)
deriving Repr, DecidableEq

/-- The incremental payload carried by a `content_block_delta` event:
a text fragment or a partial-JSON fragment. -/
inductive DeltaPayload where
  | text_delta (text : String)
  | input_json_delta (partial_json : String)
deriving Repr, DecidableEq

/-- Anthropic streaming lifecycle event, a closed sum over the protocol's
event kinds (spec section 3, AnthropicEvent).  `message_start` carries the
skeleton message's id and model (its role, content and usage are the fixed
skeleton values); `message_delta` carries the mapped stop reason and the
retained usage totals. -/
inductive AnthropicEvent where
  | message_start (id : String) (model : String)
  | content_block_start (index : Nat) (kind : BlockKind)
  | content_block_delta (index : Nat) (payload : DeltaPayload)
  | content_block_stop (index : Nat)
  | message_delta (stop_reason : String) (usage : Usage)
  | message_stop
deriving Repr, DecidableEq

/-- Accumulator record for one upstream tool-call index: the allocated
content-block index, the tool name, and the growing buffer of partial-JSON
argument text (spec section 3, TranslationState). -/
structure ToolCallAccumulator where
  blockIndex : Nat
  name : String
  buffer : String
deriving Repr, DecidableEq

/-- Mutable per-exchange translation state (`AnthropicStreamState` in the
handler source, created fresh at lines 100-105 of
`src/routes/messages/handler.ts`).  Modelled from the spec: a flag for
whether `message_start` has been emitted, the next content-block index to
allocate, a flag for whether a block is currently open, and a mapping from
upstream tool-call index to accumulator record (spec section 3).  The
`usageTotals` field realizes spec section 4.3 step 4 ("retain it as the
exchange's running usage totals") and `finished` realizes the terminal
state of the automaton of spec section 4.3 ("`finished` is terminal and no
further chunks may be processed afterward"). -/
structure AnthropicStreamState where
  messageStartSent : Bool
  contentBlockIndex : Nat
  contentBlockOpen : Bool
  toolCalls : List (Nat × ToolCallAccumulator)
  usageTotals : Usage
  finished : Bool
deriving Repr, DecidableEq

/-- The fresh state created when a streaming exchange begins
(`src/routes/messages/handler.ts` lines 100-105). -/
def freshState : AnthropicStreamState :=
  { messageStartSent := false
    contentBlockIndex := 0
    contentBlockOpen := false
    toolCalls := []
    usageTotals := ⟨0, 0⟩
    finished := false }

/-- Errors of the translation engine (spec section 7 taxonomy; only the
variants reachable from the streaming translator are modelled). -/
inductive TranslationError where
  | ProtocolViolation (msg : String)
deriving Repr, DecidableEq

/-- Fixed finish-reason table: OpenAI finish reason to the closest
Anthropic stop reason.  Modelled from the spec: "length-limited ->
max-tokens reached, tool invocation requested -> tool-use, normal
completion -> end-turn" (spec section 4.2). -/
def mapStopReason (reason : String) : String :=
  if reason = "length" then "max_tokens"
  else if reason = "tool_calls" then "tool_use"
  else "end_turn"

/-- The text fragment of a chunk's delta, when present. -/
def ChatCompletionChunk.text (c : ChatCompletionChunk) : Option String :=
  c.delta.bind fun d => d.content

/-- The tool-call fragments of a chunk's delta (empty when no delta). -/
def ChatCompletionChunk.fragments (c : ChatCompletionChunk) : List ToolCallFragment :=
  match c.delta with
  | some d => d.tool_calls
  | none => []

/-- Step 1 of the per-chunk algorithm.  Modelled from the spec: "If
`message_start` has not yet been emitted, emit it first (skeleton message:
id, role assistant, model, empty content, zero usage), then mark it sent.
This happens on the very first chunk regardless of its contents" (spec
section 4.3 step 1). -/
def emitMessageStart (c : ChatCompletionChunk) (st : AnthropicStreamState) :
    List AnthropicEvent × AnthropicStreamState :=
  if st.messageStartSent then ([], st)
  else ([AnthropicEvent.message_start c.id c.model], { st with messageStartSent := true })

/-- Step 2 of the per-chunk algorithm.  Modelled from the spec: "If the
chunk's delta carries plain text: if no content block is currently open,
allocate the next index, emit `content_block_start` (type text) for it,
and mark it open; then emit `content_block_delta` (text fragment) for that
index" (spec section 4.3 step 2).  When a block is already open the delta
targets it, i.e. the most recently allocated index. -/
def emitTextEvents (c : ChatCompletionChunk) (st : AnthropicStreamState) :
    List AnthropicEvent × AnthropicStreamState :=
  match c.text with
  | none => ([], st)
  | some text =>
    if st.contentBlockOpen then
      ([AnthropicEvent.content_block_delta (st.contentBlockIndex - 1) (DeltaPayload.text_delta text)], st)
    else
      ([AnthropicEvent.content_block_start st.contentBlockIndex BlockKind.text,
        AnthropicEvent.content_block_delta st.contentBlockIndex (DeltaPayload.text_delta text)],
       { st with
          contentBlockIndex := st.contentBlockIndex + 1
          contentBlockOpen := true })

/-- Step 3 of the per-chunk algorithm, for one tool-call fragment.
Modelled from the spec (spec section 4.3 step 3): an unseen tool-call
index first closes any currently open block with `content_block_stop`,
then allocates a new content-block index, records the mapping, emits
`content_block_start` (type tool-use) and `content_block_delta`
(partial-JSON), appending the fragment's argument text to the accumulator
buffer.  A fragment for an already-seen tool call whose block is still the
open one appends to its buffer and emits a `content_block_delta`; a
fragment whose mapped block has already been closed is a
`ProtocolViolation` ("Fragments for a tool call never arrive once that
tool call's block has been closed; if this invariant is violated by the
upstream, the translator fails with `ProtocolViolation`", spec section
4.3).  A seen tool call's block is the open one exactly when a block is
open and its index is the most recently allocated one. -/
def handleFragment (f : ToolCallFragment) (st : AnthropicStreamState) :
    Except TranslationError (List AnthropicEvent × AnthropicStreamState) :=
  match List.lookup f.index st.toolCalls with
  | none =>
    let closeEvents : List AnthropicEvent :=
      if st.contentBlockOpen then [AnthropicEvent.content_block_stop (st.contentBlockIndex - 1)]
      else []
    let blockIndex := st.contentBlockIndex
    let toolName := f.name.getD ""
    Except.ok
      (closeEvents ++
        [AnthropicEvent.content_block_start blockIndex (BlockKind.tool_use (f.id.getD "") toolName),
         AnthropicEvent.content_block_delta blockIndex (DeltaPayload.input_json_delta f.arguments)],
       { st with
          contentBlockIndex := blockIndex + 1
          contentBlockOpen := true
          toolCalls := (f.index, ⟨blockIndex, toolName, f.arguments⟩) :: st.toolCalls })
  | some acc =>
    if st.contentBlockOpen = true ∧ st.contentBlockIndex = acc.blockIndex + 1 then
      Except.ok
        ([AnthropicEvent.content_block_delta acc.blockIndex (DeltaPayload.input_json_delta f.arguments)],
         { st with
            toolCalls := st.toolCalls.map fun p =>
              if p.1 = f.index then (p.1, { p.2 with buffer := p.2.buffer ++ f.arguments }) else p })
    else
      Except.error (TranslationError.ProtocolViolation "tool-call fragment for an already-closed content block")

/-- Step 3 of the per-chunk algorithm over the whole fragment list, in
order ("for each fragment", spec section 4.3 step 3). -/
def handleFragments : List ToolCallFragment → AnthropicStreamState →
    Except TranslationError (List AnthropicEvent × AnthropicStreamState)
  | [], st => Except.ok ([], st)
  | f :: fs, st =>
    match handleFragment f st with
    | Except.error e => Except.error e
    | Except.ok (evs, st1) =>
      match handleFragments fs st1 with
      | Except.error e => Except.error e
      | Except.ok (evs', st2) => Except.ok (evs ++ evs', st2)

/-- Step 4 of the per-chunk algorithm.  Modelled from the spec: "If the
chunk carries a usage record, retain it as the exchange's running usage
totals (last value wins ...)" (spec section 4.3 step 4). -/
def retainUsage (c : ChatCompletionChunk) (st : AnthropicStreamState) : AnthropicStreamState :=
  match c.usage with
  | some u => { st with usageTotals := u }
  | none => st

/-- Step 5 of the per-chunk algorithm.  Modelled from the spec: "If the
chunk carries a finish reason: close the currently open content block, if
any, with `content_block_stop`; emit `message_delta` carrying the mapped
stop reason and the retained usage totals; emit `message_stop`" (spec
section 4.3 step 5); the exchange then reaches the terminal `finished`
state of the automaton. -/
def emitFinishEvents (c : ChatCompletionChunk) (st : AnthropicStreamState) :
    List AnthropicEvent × AnthropicStreamState :=
  match c.finish_reason with
  | none => ([], st)
  | some reason =>
    let closeEvents : List AnthropicEvent :=
      if st.contentBlockOpen then [AnthropicEvent.content_block_stop (st.contentBlockIndex - 1)]
      else []
    (closeEvents ++
      [AnthropicEvent.message_delta (mapStopReason reason) st.usageTotals,
       AnthropicEvent.message_stop],
     { st with contentBlockOpen := false, finished := true })

/-- The Stream Event Translator: convert one ChatChunk, given the current
translation state, into the ordered list of AnthropicEvents it implies and
the successor state.  Modelled from the spec: the five-step per-chunk
algorithm of spec section 4.3 (the source file
`src/routes/messages/stream-translation.ts` is not among the available
sources; only its call site in the handler is).  Processing a chunk after
the terminal state is a `ProtocolViolation` (spec section 4.3 automaton). -/
def translateChunkToAnthropicEvents (c : ChatCompletionChunk) (st : AnthropicStreamState) :
    Except TranslationError (List AnthropicEvent × AnthropicStreamState) :=
  if st.finished then
    Except.error (TranslationError.ProtocolViolation "chunk received after message_stop")
  else
    let r1 := emitMessageStart c st
    let r2 := emitTextEvents c r1.2
    match handleFragments c.fragments r2.2 with
    | Except.error e => Except.error e
    | Except.ok (e3, st3) =>
      let st4 := retainUsage c st3
      let r5 := emitFinishEvents c st4
      Except.ok (r1.1 ++ r2.1 ++ e3 ++ r5.1, r5.2)

/-- One full streaming exchange at the translator level: feed the chunks
in arrival order through `translateChunkToAnthropicEvents`, threading the
state and concatenating the emitted events. -/
def processChunks : List ChatCompletionChunk → AnthropicStreamState →
    Except TranslationError (List AnthropicEvent × AnthropicStreamState)
  | [], st => Except.ok ([], st)
  | c :: cs, st =>
    match translateChunkToAnthropicEvents c st with
    | Except.error e => Except.error e
    | Except.ok (evs, st1) =>
      match processChunks cs st1 with
      | Except.error e => Except.error e
      | Except.ok (evs', st2) => Except.ok (evs ++ evs', st2)

/-! ### Wire payloads and upstream results seen by the two handlers -/

/-- One role-tagged message of an OpenAI-shape request.
Modelled from the spec: ChatRequest carries an "ordered sequence of
role-tagged messages (each with text ...)" (spec section 3). -/
structure ChatMessage where
  role : String
  content : String
deriving Repr, DecidableEq

/-- OpenAI-shape request payload (`ChatCompletionsPayload`).
Modelled from the spec: "model identifier, ordered sequence of role-tagged
messages, optional tool/function declarations, optional max-output-tokens
bound, streaming flag" (spec section 3, ChatRequest); the type definition
file of the source is not among the available sources. -/
structure ChatCompletionsPayload where
  model : String
  messages : List ChatMessage
  tools : Option (List String)
  max_tokens : Option Nat
  stream : Option Bool
deriving Repr, DecidableEq

/-- One completion choice of a non-streaming OpenAI-shape response.
Modelled from the spec: "a single completion choice containing a finish
reason and a message (role, text ...)" (spec section 3, ChatResponse). -/
structure Choice where
  role : String
  content : Option String
  finish_reason : Option String
deriving Repr, DecidableEq

/-- Non-streaming OpenAI-shape completed response
(`ChatCompletionResponse`).  Modelled from the spec: "model identifier, a
single completion choice ..., and a usage record" (spec section 3); the
usage record is optional at the handlers, which guard on `response.usage`
before reading it. -/
structure ChatCompletionResponse where
  id : String
  model : String
  choices : List Choice
  usage : Option Usage
deriving Repr, DecidableEq

/-- One raw server-sent event of the upstream stream as iterated by the
Anthropic-surface handler: its `data` field either equals `"[DONE]"`, is
absent or empty (JavaScript-falsy), or holds the JSON encoding of a
`ChatCompletionChunk` (which the handler parses with
`JSON.parse(rawEvent.data) as ChatCompletionChunk`,
`src/routes/messages/handler.ts` line 117). -/
inductive RawEvent where
  | done
  | empty
  | payload (c : ChatCompletionChunk)
deriving Repr, DecidableEq

/-- Usage object as parsed by the OpenAI-surface handler's inline type
`{ usage?: { prompt_tokens?: number; completion_tokens?: number } }`
(`src/routes/chat-completions/handler.ts` lines 87-89): both token fields
are optional on the wire. -/
structure ParsedUsage where
  prompt_tokens : Option Nat
  completion_tokens : Option Nat
deriving Repr, DecidableEq

/-- One raw upstream chunk as iterated by the OpenAI-surface handler: its
`data` field equals `"[DONE]"`, is absent or empty, fails to parse as JSON
(the handler ignores the parse error), or parses to an object with an
optional usage record (the handler reads nothing else from it). -/
inductive RawChunk where
  | done
  | empty
  | malformed
  | payload (usage : Option ParsedUsage)
deriving Repr, DecidableEq

/-- The upstream call's result: either one completed response or a lazy
ordered sequence of raw chunks (spec section 6, upstream completion call),
with the chunk representation depending on the consuming surface. -/
inductive UpstreamResult (α : Type) where
  | completed (r : ChatCompletionResponse)
  | streamed (chunks : List α)
deriving Repr, DecidableEq

/-- The own-property names of the upstream result object as a JavaScript
value: a completed `ChatCompletionResponse` object carries `id`, `model`
and `choices` keys (and `usage` when present); the streaming result is an
async-iterable stream object with none of those data keys. -/
def UpstreamResult.ownProps {α : Type} : UpstreamResult α → List String
  | UpstreamResult.completed r =>
    ["id", "model", "choices"] ++ (if r.usage.isSome then ["usage"] else [])
  | UpstreamResult.streamed _ => []

/-- `isNonStreaming` of both handler files: the upstream result is treated
as a completed response exactly when `Object.hasOwn(response, "choices")`
(`src/routes/messages/handler.ts` lines 156-158,
`src/routes/chat-completions/handler.ts` lines 113-115). -/
def isNonStreaming {α : Type} (response : UpstreamResult α) : Bool :=
  (UpstreamResult.ownProps response).contains "choices"

/-! ### Model metadata used by the OpenAI-surface handler -/

/-- Capability limits of one model entry
(`model.capabilities.limits`); the fields the handler reads. -/
structure ModelLimits where
  max_output_tokens : Option Nat
  max_context_window_tokens : Option Nat
deriving Repr, DecidableEq

/-- Capabilities of one model entry (`model.capabilities`). -/
structure ModelCapabilities where
  limits : ModelLimits
deriving Repr, DecidableEq

/-- One entry of the cached model list (`state.models.data`). -/
structure ModelEntry where
  id : String
  capabilities : ModelCapabilities
deriving Repr, DecidableEq

/-- `state.models?.data.find((model) => model.id === payload.model)`
(`src/routes/chat-completions/handler.ts` lines 25-27): the selected model
entry, `none` when the model list is absent or no entry matches. -/
def findSelectedModel (models : Option (List ModelEntry)) (modelId : String) :
    Option ModelEntry :=
  match models with
  | none => none
  | some entries => entries.find? fun m => m.id = modelId

/-- `isNullish` from `~/lib/utils`: the value is `null` or `undefined`,
i.e. the option is empty. -/
def isNullish (x : Option Nat) : Bool := x.isNone

/-- The payload actually sent upstream by the OpenAI-surface handler:
when the inbound `max_tokens` is nullish it is replaced by the selected
model's `capabilities.limits.max_output_tokens` (undefined when the model
is not found), all other fields kept; otherwise the payload is unchanged
(`src/routes/chat-completions/handler.ts` lines 43-49). -/
def effectivePayload (models : Option (List ModelEntry))
    (payload : ChatCompletionsPayload) : ChatCompletionsPayload :=
  if isNullish payload.max_tokens then
    { payload with
       max_tokens := (findSelectedModel models payload.model).bind
         fun m => m.capabilities.limits.max_output_tokens }
  else payload

/-! ### Observable actions of one request's handling

The handlers' externally observable steps, in execution order, as one
trace: the admission-control check (`checkRateLimit`), inbound JSON
parsing (`c.req.json`), request translation (`translateToOpenAI`, on the
Anthropic surface only), the approval gate (`awaitApproval`), the upstream
call (`createChatCompletions`, carrying the payload it is given), the two
metrics calls, and per-chunk stream consumption and client writes.
Logging-only steps (consola calls and the token-count display) have no
observable effect and are not modelled. -/

inductive Action where
  | checkRateLimit
  | parseRequest
  | translateRequest
  | awaitApproval
  | upstreamCall (payload : ChatCompletionsPayload)
  | recordRequest (model : String) (endpoint : String)
  | recordTokenUsage (model : String) (tokensIn : Nat) (tokensOut : Nat)
  | consumeChunk (n : Nat)
  | writeEvent (e : AnthropicEvent)
  | writeChunk (c : RawChunk)
deriving Repr, DecidableEq

/-- Outcome of one handled request: rejected by admission control, a JSON
body (non-streaming), or an SSE stream. -/
inductive HandlerOutcome where
  | rejected
  | jsonBody
  | sseStream
deriving Repr, DecidableEq

/-- The Anthropic-surface streaming drive loop
(`src/routes/messages/handler.ts` lines 107-134): for each raw event in
arrival order, stop on a `"[DONE]"` data field, skip an empty data field,
otherwise parse the chunk, retain its usage record wholesale as the
accumulated totals (lines 120-123), translate it, and write each resulting
event before consuming the next raw event.  Returns the action trace and
`some` final totals, or `none` when a translation failure aborted the
stream (in which case the post-loop usage recording never runs). -/
def messagesStreamLoop : Nat → List RawEvent → AnthropicStreamState → Usage →
    List Action × Option Usage
  | _, [], _, totals => ([], some totals)
  | k, e :: rest, st, totals =>
    match e with
    | RawEvent.done => ([Action.consumeChunk k], some totals)
    | RawEvent.empty =>
      let r := messagesStreamLoop (k + 1) rest st totals
      (Action.consumeChunk k :: r.1, r.2)
    | RawEvent.payload c =>
      let totals1 := match c.usage with
        | some u => u
        | none => totals
      match translateChunkToAnthropicEvents c st with
      | Except.error _ => ([Action.consumeChunk k], none)
      | Except.ok (evs, st1) =>
        let r := messagesStreamLoop (k + 1) rest st1 totals1
        (Action.consumeChunk k :: (evs.map Action.writeEvent ++ r.1), r.2)

/-- The OpenAI-surface streaming relay loop
(`src/routes/chat-completions/handler.ts` lines 80-101): for each upstream
chunk in arrival order, when its data is non-empty, not `"[DONE]"` and
parses, fold any present usage fields into the totals (absent fields keep
the previous value, lines 91-93); then forward the chunk to the client
verbatim.  Returns the action trace and the final totals. -/
def chatCompletionsStreamLoop : Nat → List RawChunk → Usage → List Action × Usage
  | _, [], totals => ([], totals)
  | k, ch :: rest, totals =>
    let totals1 := match ch with
      | RawChunk.payload (some u) =>
        { prompt_tokens := u.prompt_tokens.getD totals.prompt_tokens
          completion_tokens := u.completion_tokens.getD totals.completion_tokens }
      | _ => totals
    let r := chatCompletionsStreamLoop (k + 1) rest totals1
    (Action.consumeChunk k :: Action.writeChunk ch :: r.1, r.2)

/-- End-to-end handling of one Anthropic-surface request
(`handleCompletion` of `src/routes/messages/handler.ts`), as the trace of
observable actions and the outcome.  `admitted` is the admission-control
collaborator's decision (`checkRateLimit` throws on rejection, ending the
request at once); `manualApprove` is `state.manualApprove`;
`openAIPayload` is the Request Translator's output for the inbound
Anthropic payload; `response` is the upstream call's result. -/
def handleMessagesCompletion (admitted manualApprove : Bool)
    (openAIPayload : ChatCompletionsPayload) (response : UpstreamResult RawEvent) :
    List Action × HandlerOutcome :=
  if admitted = false then ([Action.checkRateLimit], HandlerOutcome.rejected)
  else
    let pre : List Action :=
      [Action.checkRateLimit, Action.parseRequest, Action.translateRequest] ++
        (if manualApprove then [Action.awaitApproval] else []) ++
        [Action.upstreamCall openAIPayload,
         Action.recordRequest openAIPayload.model "messages"]
    match response with
    | UpstreamResult.completed r =>
      (pre ++
        (match r.usage with
          | some u => [Action.recordTokenUsage r.model u.prompt_tokens u.completion_tokens]
          | none => []),
       HandlerOutcome.jsonBody)
    | UpstreamResult.streamed raws =>
      let r := messagesStreamLoop 0 raws freshState ⟨0, 0⟩
      let post : List Action := match r.2 with
        | some t =>
          if 0 < t.prompt_tokens ∨ 0 < t.completion_tokens then
            [Action.recordTokenUsage openAIPayload.model t.prompt_tokens t.completion_tokens]
          else []
        | none => []
      (pre ++ r.1 ++ post, HandlerOutcome.sseStream)

/-- End-to-end handling of one OpenAI-surface request (`handleCompletion`
of `src/routes/chat-completions/handler.ts`), as the trace of observable
actions and the outcome. -/
def handleChatCompletion (admitted manualApprove : Bool)
    (models : Option (List ModelEntry)) (payload : ChatCompletionsPayload)
    (response : UpstreamResult RawChunk) : List Action × HandlerOutcome :=
  if admitted = false then ([Action.checkRateLimit], HandlerOutcome.rejected)
  else
    let payload1 := effectivePayload models payload
    let pre : List Action :=
      [Action.checkRateLimit, Action.parseRequest] ++
        (if manualApprove then [Action.awaitApproval] else []) ++
        [Action.upstreamCall payload1,
         Action.recordRequest payload1.model "chat-completions"]
    match response with
    | UpstreamResult.completed r =>
      (pre ++
        (match r.usage with
          | some u => [Action.recordTokenUsage r.model u.prompt_tokens u.completion_tokens]
          | none => []),
       HandlerOutcome.jsonBody)
    | UpstreamResult.streamed chunks =>
      let r := chatCompletionsStreamLoop 0 chunks ⟨0, 0⟩
      let post : List Action :=
        if 0 < r.2.prompt_tokens ∨ 0 < r.2.completion_tokens then
          [Action.recordTokenUsage payload1.model r.2.prompt_tokens r.2.completion_tokens]
        else []
      (pre ++ r.1 ++ post, HandlerOutcome.sseStream)

/-! ### Event-stream predicates for the ordering invariants -/

/-- Whether an event is a `message_start`. -/
def isMessageStart : AnthropicEvent → Bool
  | AnthropicEvent.message_start _ _ => true
  | _ => false

/-- Whether an event is a `message_delta`. -/
def isMessageDelta : AnthropicEvent → Bool
  | AnthropicEvent.message_delta _ _ => true
  | _ => false

/-- Whether an event is a `message_stop`. -/
def isMessageStop : AnthropicEvent → Bool
  | AnthropicEvent.message_stop => true
  | _ => false

/-- The content-block index an event targets, when it is a
`content_block_*` event. -/
def blockIndexOf : AnthropicEvent → Option Nat
  | AnthropicEvent.content_block_start i _ => some i
  | AnthropicEvent.content_block_delta i _ => some i
  | AnthropicEvent.content_block_stop i => some i
  | _ => none

/-- Whether content-block index `i` appears in (any `content_block_*`
event of) the event sequence. -/
def appearsIn (i : Nat) (evs : List AnthropicEvent) : Bool :=
  evs.any fun e => blockIndexOf e == some i

/-- The open/close mark an event contributes for index `i`: `true` for a
`content_block_start i`, `false` for a `content_block_stop i`. -/
def markOf (i : Nat) : AnthropicEvent → Option Bool
  | AnthropicEvent.content_block_start j _ => if j = i then some true else none
  | AnthropicEvent.content_block_stop j => if j = i then some false else none
  | _ => none

/-- The ordered open/close marks of index `i` in the event sequence.
`[true, false]` means: opened by exactly one `content_block_start`, then
closed by exactly one `content_block_stop`, and no other start or stop for
`i`. -/
def openCloseMarks (i : Nat) (evs : List AnthropicEvent) : List Bool :=
  evs.filterMap (markOf i)

/-- The ordering law claimed for a completed streaming exchange: exactly
one `message_start` and it is the first event; every content-block index
that appears is opened by exactly one `content_block_start` before being
closed by exactly one `content_block_stop`; exactly one `message_stop`,
which is the last event and directly follows exactly one `message_delta`. -/
def anthropicEventOrdering (evs : List AnthropicEvent) : Prop :=
  evs.countP isMessageStart = 1 ∧
  (∃ id model rest, evs = AnthropicEvent.message_start id model :: rest) ∧
  evs.countP isMessageDelta = 1 ∧
  evs.countP isMessageStop = 1 ∧
  (∃ pre sr u, evs = pre ++ [AnthropicEvent.message_delta sr u, AnthropicEvent.message_stop]) ∧
  (∀ i, appearsIn i evs = true → openCloseMarks i evs = [true, false])

/-- Invariant relating the events emitted so far to the translation state,
holding at every point of an exchange that has not yet reached the
`finished` state. -/
def streamInvariant (evs : List AnthropicEvent) (st : AnthropicStreamState) : Prop :=
  (st.messageStartSent = false → evs = []) ∧
  (st.messageStartSent = true →
    evs.countP isMessageStart = 1 ∧
    ∃ id model rest, evs = AnthropicEvent.message_start id model :: rest) ∧
  evs.countP isMessageDelta = 0 ∧
  evs.countP isMessageStop = 0 ∧
  (∀ i, st.contentBlockIndex ≤ i → openCloseMarks i evs = [] ∧ appearsIn i evs = false) ∧
  (st.contentBlockOpen = true →
    0 < st.contentBlockIndex ∧
    openCloseMarks (st.contentBlockIndex - 1) evs = [true] ∧
    ∀ i, i < st.contentBlockIndex - 1 → openCloseMarks i evs = [true, false]) ∧
  (st.contentBlockOpen = false →
    ∀ i, i < st.contentBlockIndex → openCloseMarks i evs = [true, false])

/-! ### Small computation lemmas about the event predicates -/

@[simp]
theorem markOf_message_start (i : Nat) (id m : String) :
    markOf i (AnthropicEvent.message_start id m) = none := rfl

@[simp]
theorem markOf_block_start (i j : Nat) (k : BlockKind) :
    markOf i (AnthropicEvent.content_block_start j k) = if j = i then some true else none := rfl

@[simp]
theorem markOf_block_delta (i j : Nat) (p : DeltaPayload) :
    markOf i (AnthropicEvent.content_block_delta j p) = none := rfl

@[simp]
theorem markOf_block_stop (i j : Nat) :
    markOf i (AnthropicEvent.content_block_stop j) = if j = i then some false else none := rfl

@[simp]
theorem markOf_message_delta (i : Nat) (sr : String) (u : Usage) :
    markOf i (AnthropicEvent.message_delta sr u) = none := rfl

@[simp]
theorem markOf_message_stop (i : Nat) : markOf i AnthropicEvent.message_stop = none := rfl

@[simp]
theorem blockIndexOf_message_start (id m : String) :
    blockIndexOf (AnthropicEvent.message_start id m) = none := rfl

@[simp]
theorem blockIndexOf_block_start (j : Nat) (k : BlockKind) :
    blockIndexOf (AnthropicEvent.content_block_start j k) = some j := rfl

@[simp]
theorem blockIndexOf_block_delta (j : Nat) (p : DeltaPayload) :
    blockIndexOf (AnthropicEvent.content_block_delta j p) = some j := rfl

@[simp]
theorem blockIndexOf_block_stop (j : Nat) :
    blockIndexOf (AnthropicEvent.content_block_stop j) = some j := rfl

@[simp]
theorem blockIndexOf_message_delta (sr : String) (u : Usage) :
    blockIndexOf (AnthropicEvent.message_delta sr u) = none := rfl

@[simp]
theorem blockIndexOf_message_stop : blockIndexOf AnthropicEvent.message_stop = none := rfl

@[simp]
theorem openCloseMarks_nil (i : Nat) : openCloseMarks i [] = [] := rfl

@[simp]
theorem openCloseMarks_append (i : Nat) (l1 l2 : List AnthropicEvent) :
    openCloseMarks i (l1 ++ l2) = openCloseMarks i l1 ++ openCloseMarks i l2 :=
  List.filterMap_append l1 l2 (markOf i)

theorem openCloseMarks_cons (i : Nat) (e : AnthropicEvent) (l : List AnthropicEvent) :
    openCloseMarks i (e :: l) =
      match markOf i e with
      | none => openCloseMarks i l
      | some b => b :: openCloseMarks i l := by
  cases h : markOf i e <;> simp [openCloseMarks, List.filterMap_cons, h]

@[simp]
theorem appearsIn_nil (i : Nat) : appearsIn i [] = false := rfl

@[simp]
theorem appearsIn_append (i : Nat) (l1 l2 : List AnthropicEvent) :
    appearsIn i (l1 ++ l2) = (appearsIn i l1 || appearsIn i l2) :=
  List.any_append

@[simp]
theorem appearsIn_cons (i : Nat) (e : AnthropicEvent) (l : List AnthropicEvent) :
    appearsIn i (e :: l) = ((blockIndexOf e == some i) || appearsIn i l) := rfl

/-! ### C8: max-tokens defaulting on the OpenAI surface -/

/-- C8: on the OpenAI surface, a nullish inbound `max_tokens` is replaced
by the selected model's max-output-tokens capability limit before the
upstream call (staying undefined when the model is not found in the model
list), a non-nullish `max_tokens` and every other payload field pass
through unchanged, and the upstream call receives exactly this effective
payload. -/
theorem max_tokens_defaulting (models : Option (List ModelEntry))
    (payload : ChatCompletionsPayload) :
    (payload.max_tokens = none →
      effectivePayload models payload =
        { payload with
           max_tokens := (findSelectedModel models payload.model).bind
             fun m => m.capabilities.limits.max_output_tokens }) ∧
    (payload.max_tokens = none → findSelectedModel models payload.model = none →
      (effectivePayload models payload).max_tokens = none) ∧
    (∀ n, payload.max_tokens = some n → effectivePayload models payload = payload) ∧
    ((effectivePayload models payload).model = payload.model ∧
      (effectivePayload models payload).messages = payload.messages ∧
      (effectivePayload models payload).tools = payload.tools ∧
      (effectivePayload models payload).stream = payload.stream) ∧
    (∀ (response : UpstreamResult RawChunk) (manualApprove : Bool),
      Action.upstreamCall (effectivePayload models payload) ∈
        (handleChatCompletion true manualApprove models payload response).1) := by
  refine ⟨?_, ?_, ?_, ?_, ?_⟩
  · intro h
    simp [effectivePayload, isNullish, h]
  · intro h hfind
    simp [effectivePayload, isNullish, h, hfind]
  · intro n h
    simp [effectivePayload, isNullish, h]
  · cases h : payload.max_tokens <;> simp [effectivePayload, isNullish, h]
  · intro response manualApprove
    cases response <;> cases manualApprove <;>
      simp [handleChatCompletion]

/-- Witness for C8 at a concrete model list and payload: the nullish
`max_tokens` is set to the selected model's limit of 100. -/
theorem max_tokens_defaulting_witness :
    effectivePayload (some [⟨"gpt", ⟨⟨some 100, none⟩⟩⟩])
        ⟨"gpt", [⟨"user", "hello"⟩], none, none, none⟩ =
      ⟨"gpt", [⟨"user", "hello"⟩], none, some 100, none⟩ := by
  have h :=
    (max_tokens_defaulting (some [⟨"gpt", ⟨⟨some 100, none⟩⟩⟩])
      ⟨"gpt", [⟨"user", "hello"⟩], none, none, none⟩).1 rfl
  simpa using h

/-! ### C9: dispatch on the own property "choices" -/

/-- C9: on both surfaces the upstream result is treated as a non-streaming
completed response exactly when the returned object has an own property
named "choices": `isNonStreaming` tests exactly that property, the test
holds exactly for completed responses, and for admitted requests the
handlers return a JSON body when it holds and an SSE stream otherwise. -/
theorem nonstreaming_dispatch_by_choices_prop :
    (∀ (resp : UpstreamResult RawEvent),
      (isNonStreaming resp = true ↔ "choices" ∈ UpstreamResult.ownProps resp) ∧
      (isNonStreaming resp = true ↔ ∃ r, resp = UpstreamResult.completed r)) ∧
    (∀ (resp : UpstreamResult RawChunk),
      (isNonStreaming resp = true ↔ "choices" ∈ UpstreamResult.ownProps resp) ∧
      (isNonStreaming resp = true ↔ ∃ r, resp = UpstreamResult.completed r)) ∧
    (∀ (manualApprove : Bool) (openAIPayload : ChatCompletionsPayload)
        (resp : UpstreamResult RawEvent),
      (handleMessagesCompletion true manualApprove openAIPayload resp).2 =
        (if isNonStreaming resp then HandlerOutcome.jsonBody else HandlerOutcome.sseStream)) ∧
    (∀ (manualApprove : Bool) (models : Option (List ModelEntry))
        (payload : ChatCompletionsPayload) (resp : UpstreamResult RawChunk),
      (handleChatCompletion true manualApprove models payload resp).2 =
        (if isNonStreaming resp then HandlerOutcome.jsonBody else HandlerOutcome.sseStream)) := by
  refine ⟨?_, ?_, ?_, ?_⟩
  · intro resp
    cases resp with
    | completed r =>
      refine ⟨?_, ?_⟩ <;> simp [isNonStreaming, UpstreamResult.ownProps]
    | streamed chunks =>
      refine ⟨?_, ?_⟩ <;> simp [isNonStreaming, UpstreamResult.ownProps]
  · intro resp
    cases resp with
    | completed r =>
      refine ⟨?_, ?_⟩ <;> simp [isNonStreaming, UpstreamResult.ownProps]
    | streamed chunks =>
      refine ⟨?_, ?_⟩ <;> simp [isNonStreaming, UpstreamResult.ownProps]
  · intro manualApprove openAIPayload resp
    cases resp <;>
      simp [handleMessagesCompletion, isNonStreaming, UpstreamResult.ownProps]
  · intro manualApprove models payload resp
    cases resp <;>
      simp [handleChatCompletion, isNonStreaming, UpstreamResult.ownProps]

/-- Witness for C9 at concrete upstream results: a completed response is
dispatched as non-streaming, a chunk stream is not. -/
theorem nonstreaming_dispatch_by_choices_prop_witness :
    isNonStreaming (UpstreamResult.completed ⟨"id0", "gpt", [], none⟩ : UpstreamResult RawChunk)
        = true ∧
      isNonStreaming (UpstreamResult.streamed [] : UpstreamResult RawChunk) = false := by
  constructor
  · exact (nonstreaming_dispatch_by_choices_prop.2.1
      (UpstreamResult.completed ⟨"id0", "gpt", [], none⟩)).2.mpr ⟨_, rfl⟩
  · have h := (nonstreaming_dispatch_by_choices_prop.2.1
      (UpstreamResult.streamed [] : UpstreamResult RawChunk)).2
    cases hb : isNonStreaming (UpstreamResult.streamed [] : UpstreamResult RawChunk) with
    | false => rfl
    | true => exact absurd (h.mp hb) (by simp)

/-! ### C10: "[DONE]" and empty-data handling on both surfaces -/

/-- The raw chunk forwarded by a `writeChunk` action, when the action is
one. -/
def writtenChunk : Action → Option RawChunk
  | Action.writeChunk c => some c
  | _ => none

/-- C10: on the Anthropic surface a raw event whose data equals "[DONE]"
terminates the loop with no translation and no client write and the rest
of the stream untouched; a raw event with an empty data field is consumed
and skipped, contributing no client events and leaving the translation
state and totals unchanged; on the OpenAI surface every upstream chunk,
the "[DONE]" marker included, is forwarded to the client verbatim and in
order. -/
theorem done_and_empty_data_handling :
    (∀ (k : Nat) (rest : List RawEvent) (st : AnthropicStreamState) (t : Usage),
      messagesStreamLoop k (RawEvent.done :: rest) st t = ([Action.consumeChunk k], some t)) ∧
    (∀ (k : Nat) (rest : List RawEvent) (st : AnthropicStreamState) (t : Usage),
      messagesStreamLoop k (RawEvent.empty :: rest) st t =
        (Action.consumeChunk k :: (messagesStreamLoop (k + 1) rest st t).1,
         (messagesStreamLoop (k + 1) rest st t).2)) ∧
    (∀ (k : Nat) (chunks : List RawChunk) (t : Usage),
      (chatCompletionsStreamLoop k chunks t).1.filterMap writtenChunk = chunks) := by
  refine ⟨fun k rest st t => rfl, fun k rest st t => rfl, ?_⟩
  intro k chunks
  induction chunks generalizing k with
  | nil => intro t; rfl
  | cons ch rest ih =>
    intro t
    simp only [chatCompletionsStreamLoop]
    simp [List.filterMap_cons, writtenChunk, ih]

/-! ### C5: tool-call fragment for an already-closed block -/

/-- C5: if a chunk delivers a tool-call fragment whose tool-call index is
already mapped to a content block that is no longer the open one, the
Stream Event Translator fails with `ProtocolViolation` instead of
appending to the stale accumulator or reopening the block. -/
theorem closed_block_fragment_protocol_violation
    (st : AnthropicStreamState) (c : ChatCompletionChunk) (f : ToolCallFragment)
    (acc : ToolCallAccumulator)
    (hfin : st.finished = false)
    (hdelta : c.delta = some ⟨none, [f]⟩)
    (hseen : List.lookup f.index st.toolCalls = some acc)
    (hclosed : ¬(st.contentBlockOpen = true ∧ st.contentBlockIndex = acc.blockIndex + 1)) :
    translateChunkToAnthropicEvents c st =
      Except.error
        (TranslationError.ProtocolViolation
          "tool-call fragment for an already-closed content block") := by
  have htext : c.text = none := by simp [ChatCompletionChunk.text, hdelta]
  have hfrags : c.fragments = [f] := by simp [ChatCompletionChunk.fragments, hdelta]
  cases hms : st.messageStartSent <;>
    simp [translateChunkToAnthropicEvents, hfin, emitMessageStart, hms, emitTextEvents, htext,
      hfrags, handleFragments, handleFragment, hseen, hclosed]

/-- Witness for C5: a concrete state in which tool-call index 0 was mapped
to block 0 and that block has been closed (block 1 is open); a fragment
for index 0 makes the translator fail with `ProtocolViolation`. -/
theorem closed_block_fragment_protocol_violation_witness :
    translateChunkToAnthropicEvents
        ⟨"m", "g", some ⟨none, [⟨0, none, none, "gs"⟩]⟩, none, none⟩
        ⟨true, 2, true, [(0, ⟨0, "lookup", "ar"⟩), (1, ⟨1, "search", "br"⟩)], ⟨0, 0⟩, false⟩ =
      Except.error
        (TranslationError.ProtocolViolation
          "tool-call fragment for an already-closed content block") :=
  closed_block_fragment_protocol_violation
    ⟨true, 2, true, [(0, ⟨0, "lookup", "ar"⟩), (1, ⟨1, "search", "br"⟩)], ⟨0, 0⟩, false⟩
    ⟨"m", "g", some ⟨none, [⟨0, none, none, "gs"⟩]⟩, none, none⟩
    ⟨0, none, none, "gs"⟩ ⟨0, "lookup", "ar"⟩ rfl rfl rfl (by decide)

/-! ### Shape of the streaming-loop traces -/

/-- Every action of the Anthropic-surface drive loop's trace is a chunk
consumption or a client event write. -/
theorem messagesStreamLoop_actions :
    ∀ (raws : List RawEvent) (k : Nat) (st : AnthropicStreamState) (t : Usage)
      (a : Action), a ∈ (messagesStreamLoop k raws st t).1 →
      (∃ n, a = Action.consumeChunk n) ∨ ∃ e, a = Action.writeEvent e := by
  intro raws
  induction raws with
  | nil => intro k st t a h; simp [messagesStreamLoop] at h
  | cons e rest ih =>
    intro k st t a h
    cases e with
    | done =>
      simp [messagesStreamLoop] at h
      exact Or.inl ⟨k, h⟩
    | empty =>
      simp only [messagesStreamLoop, List.mem_cons] at h
      rcases h with h | h
      · exact Or.inl ⟨k, h⟩
      · exact ih (k + 1) st t a h
    | payload c =>
      simp only [messagesStreamLoop] at h
      cases htr : translateChunkToAnthropicEvents c st with
      | error err =>
        rw [htr] at h
        simp at h
        exact Or.inl ⟨k, h⟩
      | ok r =>
        rw [htr] at h
        simp only [List.mem_cons, List.mem_append, List.mem_map] at h
        rcases h with h | ⟨ev, _, hev⟩ | h
        · exact Or.inl ⟨k, h⟩
        · exact Or.inr ⟨ev, hev.symm⟩
        · exact ih (k + 1) r.2 _ a h

/-- Every action of the OpenAI-surface relay loop's trace is a chunk
consumption or a verbatim chunk write. -/
theorem chatCompletionsStreamLoop_actions :
    ∀ (chunks : List RawChunk) (k : Nat) (t : Usage) (a : Action),
      a ∈ (chatCompletionsStreamLoop k chunks t).1 →
      (∃ n, a = Action.consumeChunk n) ∨ ∃ ch, a = Action.writeChunk ch := by
  intro chunks
  induction chunks with
  | nil => intro k t a h; simp [chatCompletionsStreamLoop] at h
  | cons ch rest ih =>
    intro k t a h
    simp only [chatCompletionsStreamLoop, List.mem_cons] at h
    rcases h with h | h | h
    · exact Or.inl ⟨k, h⟩
    · exact Or.inr ⟨ch, h⟩
    · exact ih (k + 1) _ a h

/-! ### C6: admission control runs first; rejection stops everything -/

/-- C6: on both surfaces the admission-control check is the first
observable action of every request, and when it rejects, the trace is that
single check — in particular no request parsing, no translation, no
upstream call and no metric recording happen — and the request fails
immediately. -/
theorem admission_check_first (admitted manualApprove : Bool)
    (openAIPayload : ChatCompletionsPayload) (respM : UpstreamResult RawEvent)
    (models : Option (List ModelEntry)) (payload : ChatCompletionsPayload)
    (respC : UpstreamResult RawChunk) :
    ((handleMessagesCompletion admitted manualApprove openAIPayload respM).1.head? =
      some Action.checkRateLimit) ∧
    ((handleChatCompletion admitted manualApprove models payload respC).1.head? =
      some Action.checkRateLimit) ∧
    (admitted = false →
      handleMessagesCompletion admitted manualApprove openAIPayload respM =
        ([Action.checkRateLimit], HandlerOutcome.rejected) ∧
      handleChatCompletion admitted manualApprove models payload respC =
        ([Action.checkRateLimit], HandlerOutcome.rejected) ∧
      (∀ p, Action.upstreamCall p ∉
        (handleMessagesCompletion admitted manualApprove openAIPayload respM).1) ∧
      (∀ p, Action.upstreamCall p ∉
        (handleChatCompletion admitted manualApprove models payload respC).1) ∧
      (∀ m e, Action.recordRequest m e ∉
        (handleMessagesCompletion admitted manualApprove openAIPayload respM).1) ∧
      (∀ m e, Action.recordRequest m e ∉
        (handleChatCompletion admitted manualApprove models payload respC).1) ∧
      Action.parseRequest ∉
        (handleMessagesCompletion admitted manualApprove openAIPayload respM).1 ∧
      Action.translateRequest ∉
        (handleMessagesCompletion admitted manualApprove openAIPayload respM).1) := by
  refine ⟨?_, ?_, ?_⟩
  · cases admitted with
    | false => rfl
    | true => cases respM <;> simp [handleMessagesCompletion]
  · cases admitted with
    | false => rfl
    | true => cases respC <;> simp [handleChatCompletion]
  · intro h
    subst h
    refine ⟨rfl, rfl, ?_, ?_, ?_, ?_, ?_, ?_⟩ <;>
      simp [handleMessagesCompletion, handleChatCompletion]

/-- Witness for C6: a concrete rejected request on each surface yields the
one-action trace and the rejected outcome. -/
theorem admission_check_first_witness :
    handleMessagesCompletion false true ⟨"gpt", [], none, none, none⟩
        (UpstreamResult.streamed []) =
      ([Action.checkRateLimit], HandlerOutcome.rejected) ∧
    handleChatCompletion false true none ⟨"gpt", [], none, none, none⟩
        (UpstreamResult.streamed []) =
      ([Action.checkRateLimit], HandlerOutcome.rejected) := by
  have h :=
    (admission_check_first false true ⟨"gpt", [], none, none, none⟩
      (UpstreamResult.streamed []) none ⟨"gpt", [], none, none, none⟩
      (UpstreamResult.streamed [])).2.2 rfl
  exact ⟨h.1, h.2.1⟩

/-! ### C7: the approval gate -/

/-- Shape of an admitted Anthropic-surface request's trace: a fixed
prefix — admission check, parse, translation, the approval gate exactly
when manual approval is on, the upstream call, the request metric — and a
tail that never contains the approval gate. -/
theorem handleMessages_trace_shape (manualApprove : Bool) (p : ChatCompletionsPayload)
    (resp : UpstreamResult RawEvent) :
    ∃ rest, (handleMessagesCompletion true manualApprove p resp).1 =
      [Action.checkRateLimit, Action.parseRequest, Action.translateRequest] ++
        (if manualApprove then [Action.awaitApproval] else []) ++
        [Action.upstreamCall p, Action.recordRequest p.model "messages"] ++ rest ∧
      Action.awaitApproval ∉ rest := by
  cases resp with
  | completed r =>
    refine ⟨(match r.usage with
      | some u => [Action.recordTokenUsage r.model u.prompt_tokens u.completion_tokens]
      | none => []), ?_, ?_⟩
    · simp [handleMessagesCompletion, List.append_assoc]
    · cases r.usage <;> simp
  | streamed raws =>
    refine ⟨(messagesStreamLoop 0 raws freshState ⟨0, 0⟩).1 ++
      (match (messagesStreamLoop 0 raws freshState ⟨0, 0⟩).2 with
        | some t =>
          if 0 < t.prompt_tokens ∨ 0 < t.completion_tokens then
            [Action.recordTokenUsage p.model t.prompt_tokens t.completion_tokens]
          else []
        | none => []), ?_, ?_⟩
    · simp [handleMessagesCompletion, List.append_assoc]
    · intro hmem
      rcases List.mem_append.mp hmem with h | h
      · rcases messagesStreamLoop_actions raws 0 freshState ⟨0, 0⟩ _ h with ⟨n, hn⟩ | ⟨e, he⟩
        · cases hn
        · cases he
      · revert h
        cases (messagesStreamLoop 0 raws freshState ⟨0, 0⟩).2 with
        | none => simp
        | some t =>
          simp only
          split <;> simp

/-- Shape of an admitted OpenAI-surface request's trace: admission check,
parse, the approval gate exactly when manual approval is on, the upstream
call with the effective payload, the request metric, then a tail that
never contains the approval gate. -/
theorem handleChat_trace_shape (manualApprove : Bool)
    (models : Option (List ModelEntry)) (payload : ChatCompletionsPayload)
    (resp : UpstreamResult RawChunk) :
    ∃ rest, (handleChatCompletion true manualApprove models payload resp).1 =
      [Action.checkRateLimit, Action.parseRequest] ++
        (if manualApprove then [Action.awaitApproval] else []) ++
        [Action.upstreamCall (effectivePayload models payload),
          Action.recordRequest (effectivePayload models payload).model "chat-completions"] ++
        rest ∧
      Action.awaitApproval ∉ rest := by
  cases resp with
  | completed r =>
    refine ⟨(match r.usage with
      | some u => [Action.recordTokenUsage r.model u.prompt_tokens u.completion_tokens]
      | none => []), ?_, ?_⟩
    · simp [handleChatCompletion, List.append_assoc]
    · cases r.usage <;> simp
  | streamed chunks =>
    refine ⟨(chatCompletionsStreamLoop 0 chunks ⟨0, 0⟩).1 ++
      (if 0 < (chatCompletionsStreamLoop 0 chunks ⟨0, 0⟩).2.prompt_tokens ∨
          0 < (chatCompletionsStreamLoop 0 chunks ⟨0, 0⟩).2.completion_tokens then
        [Action.recordTokenUsage (effectivePayload models payload).model
          (chatCompletionsStreamLoop 0 chunks ⟨0, 0⟩).2.prompt_tokens
          (chatCompletionsStreamLoop 0 chunks ⟨0, 0⟩).2.completion_tokens]
      else []), ?_, ?_⟩
    · simp [handleChatCompletion, List.append_assoc]
    · intro hmem
      rcases List.mem_append.mp hmem with h | h
      · rcases chatCompletionsStreamLoop_actions chunks 0 ⟨0, 0⟩ _ h with ⟨n, hn⟩ | ⟨ch, hch⟩
        · cases hn
        · cases hch
      · revert h
        split <;> simp

/-- C7: for an admitted request, the approval gate is awaited exactly when
the global manual-approval mode is enabled, and when awaited it happens
after inbound parsing (and, on the Anthropic surface, after request
translation) and strictly before the upstream call; it is never awaited
later in the exchange. -/
theorem approval_gate_iff_manual (manualApprove : Bool)
    (openAIPayload : ChatCompletionsPayload) (respM : UpstreamResult RawEvent)
    (models : Option (List ModelEntry)) (payload : ChatCompletionsPayload)
    (respC : UpstreamResult RawChunk) :
    (Action.awaitApproval ∈ (handleMessagesCompletion true manualApprove openAIPayload respM).1 ↔
      manualApprove = true) ∧
    (Action.awaitApproval ∈ (handleChatCompletion true manualApprove models payload respC).1 ↔
      manualApprove = true) ∧
    (manualApprove = true →
      (∃ rest, (handleMessagesCompletion true manualApprove openAIPayload respM).1 =
          [Action.checkRateLimit, Action.parseRequest, Action.translateRequest,
            Action.awaitApproval, Action.upstreamCall openAIPayload] ++ rest ∧
          Action.awaitApproval ∉ rest) ∧
      (∃ rest, (handleChatCompletion true manualApprove models payload respC).1 =
          [Action.checkRateLimit, Action.parseRequest, Action.awaitApproval,
            Action.upstreamCall (effectivePayload models payload)] ++ rest ∧
          Action.awaitApproval ∉ rest)) ∧
    (manualApprove = false →
      (∃ rest, (handleMessagesCompletion true manualApprove openAIPayload respM).1 =
          [Action.checkRateLimit, Action.parseRequest, Action.translateRequest,
            Action.upstreamCall openAIPayload] ++ rest ∧
          Action.awaitApproval ∉ rest) ∧
      (∃ rest, (handleChatCompletion true manualApprove models payload respC).1 =
          [Action.checkRateLimit, Action.parseRequest,
            Action.upstreamCall (effectivePayload models payload)] ++ rest ∧
          Action.awaitApproval ∉ rest)) := by
  obtain ⟨restM, hM, hMn⟩ := handleMessages_trace_shape manualApprove openAIPayload respM
  obtain ⟨restC, hC, hCn⟩ := handleChat_trace_shape manualApprove models payload respC
  refine ⟨?_, ?_, ?_, ?_⟩
  · rw [hM]
    cases manualApprove <;> simp [hMn]
  · rw [hC]
    cases manualApprove <;> simp [hCn]
  · intro h
    subst h
    constructor
    · refine ⟨Action.recordRequest openAIPayload.model "messages" :: restM, ?_, ?_⟩
      · rw [hM]; simp
      · simp [hMn]
    · refine ⟨Action.recordRequest (effectivePayload models payload).model "chat-completions" ::
        restC, ?_, ?_⟩
      · rw [hC]; simp
      · simp [hCn]
  · intro h
    subst h
    constructor
    · refine ⟨Action.recordRequest openAIPayload.model "messages" :: restM, ?_, ?_⟩
      · rw [hM]; simp
      · simp [hMn]
    · refine ⟨Action.recordRequest (effectivePayload models payload).model "chat-completions" ::
        restC, ?_, ?_⟩
      · rw [hC]; simp
      · simp [hCn]

/-- Witness for C7 at concrete inputs on both sides of the mode switch:
with manual approval on, the gate appears in the trace; with it off, it
does not. -/
theorem approval_gate_iff_manual_witness :
    Action.awaitApproval ∈
      (handleMessagesCompletion true true ⟨"gpt", [], none, none, none⟩
        (UpstreamResult.streamed [])).1 ∧
    Action.awaitApproval ∉
      (handleChatCompletion true false none ⟨"gpt", [], none, none, none⟩
        (UpstreamResult.streamed [])).1 := by
  constructor
  · exact (approval_gate_iff_manual true ⟨"gpt", [], none, none, none⟩
      (UpstreamResult.streamed []) none ⟨"gpt", [], none, none, none⟩
      (UpstreamResult.streamed [])).1.mpr rfl
  · intro hmem
    exact absurd ((approval_gate_iff_manual false ⟨"gpt", [], none, none, none⟩
      (UpstreamResult.streamed []) none ⟨"gpt", [], none, none, none⟩
      (UpstreamResult.streamed [])).2.1.mp hmem) (by decide)

/-! ### C2: when the usage/metrics collaborator is invoked -/

/-- Whether an action is a token-usage metric recording. -/
def isRecordTokenUsage : Action → Bool
  | Action.recordTokenUsage _ _ _ => true
  | _ => false

/-- The Anthropic-surface drive loop itself never records token usage. -/
theorem messagesStreamLoop_no_token_usage (raws : List RawEvent) (k : Nat)
    (st : AnthropicStreamState) (t : Usage) :
    (messagesStreamLoop k raws st t).1.countP isRecordTokenUsage = 0 := by
  rw [List.countP_eq_zero]
  intro a ha
  rcases messagesStreamLoop_actions raws k st t a ha with ⟨n, hn⟩ | ⟨e, he⟩ <;>
    subst_vars <;> simp [isRecordTokenUsage]

/-- The OpenAI-surface relay loop itself never records token usage. -/
theorem chatCompletionsStreamLoop_no_token_usage (chunks : List RawChunk) (k : Nat)
    (t : Usage) :
    (chatCompletionsStreamLoop k chunks t).1.countP isRecordTokenUsage = 0 := by
  rw [List.countP_eq_zero]
  intro a ha
  rcases chatCompletionsStreamLoop_actions chunks k t a ha with ⟨n, hn⟩ | ⟨ch, hch⟩ <;>
    subst_vars <;> simp [isRecordTokenUsage]

/-- C2 (amended): on both surfaces the usage/metrics collaborator is
invoked at most once per exchange, and exactly once precisely when the
non-streaming response carries a usage record, or when the streaming loop
runs to completion with a positive accumulated prompt- or
completion-token total; an absent usage record, an aborted stream, or
all-zero accumulated totals record nothing. -/
theorem token_usage_recording (admitted manualApprove : Bool)
    (openAIPayload : ChatCompletionsPayload) (respM : UpstreamResult RawEvent)
    (models : Option (List ModelEntry)) (payload : ChatCompletionsPayload)
    (respC : UpstreamResult RawChunk) :
    ((handleMessagesCompletion admitted manualApprove openAIPayload respM).1.countP
        isRecordTokenUsage =
      if admitted = false then 0
      else match respM with
        | UpstreamResult.completed r => if r.usage.isSome then 1 else 0
        | UpstreamResult.streamed raws =>
          match (messagesStreamLoop 0 raws freshState ⟨0, 0⟩).2 with
          | some t => if 0 < t.prompt_tokens ∨ 0 < t.completion_tokens then 1 else 0
          | none => 0) ∧
    ((handleChatCompletion admitted manualApprove models payload respC).1.countP
        isRecordTokenUsage =
      if admitted = false then 0
      else match respC with
        | UpstreamResult.completed r => if r.usage.isSome then 1 else 0
        | UpstreamResult.streamed chunks =>
          if 0 < (chatCompletionsStreamLoop 0 chunks ⟨0, 0⟩).2.prompt_tokens ∨
              0 < (chatCompletionsStreamLoop 0 chunks ⟨0, 0⟩).2.completion_tokens then 1
          else 0) := by
  constructor
  · cases admitted with
    | false => rfl
    | true =>
      cases respM with
      | completed r =>
        cases hr : r.usage <;> cases manualApprove <;>
          simp [handleMessagesCompletion, hr, isRecordTokenUsage, List.countP_append,
            List.countP_cons]
      | streamed raws =>
        have hloop := messagesStreamLoop_no_token_usage raws 0 freshState ⟨0, 0⟩
        cases hres : (messagesStreamLoop 0 raws freshState ⟨0, 0⟩).2 with
        | none =>
          cases manualApprove <;>
            simp [handleMessagesCompletion, hres, isRecordTokenUsage, List.countP_append,
              List.countP_cons, hloop]
        | some t =>
          rcases Classical.em (0 < t.prompt_tokens ∨ 0 < t.completion_tokens) with hp | hp <;>
            cases manualApprove <;>
              simp [handleMessagesCompletion, hres, hp, isRecordTokenUsage,
                List.countP_append, List.countP_cons, hloop]
  · cases admitted with
    | false => rfl
    | true =>
      cases respC with
      | completed r =>
        cases hr : r.usage <;> cases manualApprove <;>
          simp [handleChatCompletion, hr, isRecordTokenUsage, List.countP_append,
            List.countP_cons]
      | streamed chunks =>
        have hloop := chatCompletionsStreamLoop_no_token_usage chunks 0 ⟨0, 0⟩
        rcases Classical.em (0 < (chatCompletionsStreamLoop 0 chunks ⟨0, 0⟩).2.prompt_tokens ∨
            0 < (chatCompletionsStreamLoop 0 chunks ⟨0, 0⟩).2.completion_tokens) with hp | hp <;>
          cases manualApprove <;>
            simp [handleChatCompletion, hp, isRecordTokenUsage, List.countP_append,
              List.countP_cons, hloop]

/-- Counterexample to C2 as stated: a completed OpenAI-surface exchange
whose response carries no usage record invokes the usage collaborator zero
times, not exactly once. -/
theorem token_usage_recording_counterexample :
    (handleChatCompletion true false none ⟨"gpt", [], none, some 1, none⟩
        (UpstreamResult.completed ⟨"id0", "gpt", [], none⟩)).1.countP isRecordTokenUsage = 0 ∧
    ¬((handleChatCompletion true false none ⟨"gpt", [], none, some 1, none⟩
        (UpstreamResult.completed ⟨"id0", "gpt", [], none⟩)).1.countP isRecordTokenUsage = 1) := by
  constructor
  · rfl
  · decide

/-! ### C4: last-value-wins usage retention -/

/-- The usage record the OpenAI-surface handler would parse out of a raw
chunk: present only on a non-empty, non-"[DONE]", well-formed JSON chunk
that carries a usage field. -/
def chunkUsage : RawChunk → Option ParsedUsage
  | RawChunk.payload u => u
  | _ => none

/-- The default-carrying last element of a cons: the last element of
`a :: l` with default `d` is the last element of `l` with default `a`. -/
theorem getLast?_getD_cons {α : Type} (l : List α) (a d : α) :
    ((a :: l).getLast?).getD d = (l.getLast?).getD a := by
  cases l with
  | nil => simp
  | cons b l =>
    obtain ⟨x, hx⟩ := Option.isSome_iff_exists.mp (List.getLast?_isSome.mpr (List.cons_ne_nil b l))
    rw [List.getLast?_cons_cons, hx]
    simp [hx]

/-- On the Anthropic surface a chunk's usage record replaces the retained
totals wholesale, so a completed loop reports the usage record of the last
usage-bearing chunk (or the initial totals when none carries usage). -/
theorem messagesLoop_totals_last_usage :
    ∀ (cs : List ChatCompletionChunk) (k : Nat) (st : AnthropicStreamState) (t : Usage)
      (tot : Usage),
      (messagesStreamLoop k (cs.map RawEvent.payload) st t).2 = some tot →
      tot = ((cs.filterMap ChatCompletionChunk.usage).getLast?).getD t := by
  intro cs
  induction cs with
  | nil =>
    intro k st t tot h
    simp [messagesStreamLoop] at h
    simp [h.symm]
  | cons c rest ih =>
    intro k st t tot h
    simp only [List.map_cons, messagesStreamLoop] at h
    cases htr : translateChunkToAnthropicEvents c st with
    | error e => rw [htr] at h; simp at h
    | ok r =>
      rw [htr] at h
      simp only at h
      cases hu : c.usage with
      | some u =>
        rw [hu] at h
        have := ih (k + 1) r.2 u tot h
        simp only [List.filterMap_cons, hu, this]
        rw [getLast?_getD_cons]
      | none =>
        rw [hu] at h
        have := ih (k + 1) r.2 t tot h
        simp only [List.filterMap_cons, hu, this]

/-- On the OpenAI surface usage replacement is per field: each reported
total is the last present value of that field among the parsed usage
records (or the initial value when no record carries the field). -/
theorem ccLoop_totals_fieldwise :
    ∀ (chunks : List RawChunk) (k : Nat) (t : Usage),
      ((chatCompletionsStreamLoop k chunks t).2.prompt_tokens =
        (((chunks.filterMap chunkUsage).filterMap ParsedUsage.prompt_tokens).getLast?).getD
          t.prompt_tokens) ∧
      ((chatCompletionsStreamLoop k chunks t).2.completion_tokens =
        (((chunks.filterMap chunkUsage).filterMap ParsedUsage.completion_tokens).getLast?).getD
          t.completion_tokens) := by
  intro chunks
  induction chunks with
  | nil => intro k t; constructor <;> rfl
  | cons ch rest ih =>
    intro k t
    cases ch with
    | done => simpa [chatCompletionsStreamLoop, chunkUsage] using ih (k + 1) t
    | empty => simpa [chatCompletionsStreamLoop, chunkUsage] using ih (k + 1) t
    | malformed => simpa [chatCompletionsStreamLoop, chunkUsage] using ih (k + 1) t
    | payload u? =>
      cases u? with
      | none => simpa [chatCompletionsStreamLoop, chunkUsage] using ih (k + 1) t
      | some u =>
        have ihu := ih (k + 1)
          ⟨u.prompt_tokens.getD t.prompt_tokens, u.completion_tokens.getD t.completion_tokens⟩
        constructor
        · rw [show (chatCompletionsStreamLoop k (RawChunk.payload (some u) :: rest) t).2 =
              (chatCompletionsStreamLoop (k + 1) rest
                ⟨u.prompt_tokens.getD t.prompt_tokens,
                  u.completion_tokens.getD t.completion_tokens⟩).2 from rfl]
          rw [ihu.1]
          simp only [List.filterMap_cons, chunkUsage]
          cases hp : u.prompt_tokens with
          | some p => simp [hp, getLast?_getD_cons]
          | none => simp [hp]
        · rw [show (chatCompletionsStreamLoop k (RawChunk.payload (some u) :: rest) t).2 =
              (chatCompletionsStreamLoop (k + 1) rest
                ⟨u.prompt_tokens.getD t.prompt_tokens,
                  u.completion_tokens.getD t.completion_tokens⟩).2 from rfl]
          rw [ihu.2]
          simp only [List.filterMap_cons, chunkUsage]
          cases hp : u.completion_tokens with
          | some p => simp [hp, getLast?_getD_cons]
          | none => simp [hp]

/-- C4 (amended): on the Anthropic surface a usage-bearing chunk replaces
the retained totals wholesale and a completed stream reports the last
usage-bearing chunk's record; on the OpenAI surface replacement is per
field — each present field of a parsed usage record overwrites the
corresponding total and absent fields retain the earlier value, so each
reported total is the last present value of its field. -/
theorem usage_last_value_semantics :
    (∀ (cs : List ChatCompletionChunk) (k : Nat) (st : AnthropicStreamState) (t : Usage)
        (tot : Usage),
      (messagesStreamLoop k (cs.map RawEvent.payload) st t).2 = some tot →
      tot = ((cs.filterMap ChatCompletionChunk.usage).getLast?).getD t) ∧
    (∀ (chunks : List RawChunk) (k : Nat) (t : Usage),
      ((chatCompletionsStreamLoop k chunks t).2.prompt_tokens =
        (((chunks.filterMap chunkUsage).filterMap ParsedUsage.prompt_tokens).getLast?).getD
          t.prompt_tokens) ∧
      ((chatCompletionsStreamLoop k chunks t).2.completion_tokens =
        (((chunks.filterMap chunkUsage).filterMap ParsedUsage.completion_tokens).getLast?).getD
          t.completion_tokens)) :=
  ⟨messagesLoop_totals_last_usage, ccLoop_totals_fieldwise⟩

/-- Witness for C4 at a concrete one-chunk stream carrying usage (5, 2):
the reported totals are that last usage record. -/
theorem usage_last_value_semantics_witness :
    (⟨5, 2⟩ : Usage) =
      ((([⟨"m", "g", none, none, some ⟨5, 2⟩⟩] :
          List ChatCompletionChunk).filterMap ChatCompletionChunk.usage).getLast?).getD
        ⟨0, 0⟩ :=
  usage_last_value_semantics.1 [⟨"m", "g", none, none, some ⟨5, 2⟩⟩] 0 freshState ⟨0, 0⟩
    ⟨5, 2⟩ rfl

/-- Counterexample to C4 as stated: on the OpenAI surface, a first chunk
with usage (7, 3) followed by a final usage-bearing chunk whose record has
no prompt-token field ends with totals (7, 9) — the prompt total survives
from the earlier record, so the last usage record does not replace the
totals. -/
theorem usage_last_value_semantics_counterexample :
    (chatCompletionsStreamLoop 0
        [RawChunk.payload (some ⟨some 7, some 3⟩), RawChunk.payload (some ⟨none, some 9⟩)]
        ⟨0, 0⟩).2 = ⟨7, 9⟩ ∧
    chunkUsage (RawChunk.payload (some ⟨none, some 9⟩)) = some ⟨none, some 9⟩ ∧
    (⟨none, some 9⟩ : ParsedUsage).prompt_tokens ≠ some 7 := by
  refine ⟨rfl, rfl, ?_⟩
  decide

/-! ### C1: the streaming ordering law — invariant preservation -/

/-- The fresh translation state satisfies the stream invariant with no
events emitted. -/
theorem streamInvariant_fresh : streamInvariant [] freshState := by
  refine ⟨fun _ => rfl, ?_, rfl, rfl, ?_, ?_, ?_⟩
  · intro h; simp [freshState] at h
  · intro i _; exact ⟨rfl, rfl⟩
  · intro h; simp [freshState] at h
  · intro _ i hi; simp [freshState] at hi

/-- The stream invariant only reads the `messageStartSent`,
`contentBlockIndex` and `contentBlockOpen` fields of the state. -/
theorem streamInvariant_of_fields (evs : List AnthropicEvent)
    (st st' : AnthropicStreamState)
    (h1 : st'.messageStartSent = st.messageStartSent)
    (h2 : st'.contentBlockIndex = st.contentBlockIndex)
    (h3 : st'.contentBlockOpen = st.contentBlockOpen)
    (h : streamInvariant evs st) : streamInvariant evs st' := by
  rw [streamInvariant, h1, h2, h3]
  exact h

/-- Equation for step 1 when `message_start` has already been sent. -/
theorem emitMessageStart_sent (c : ChatCompletionChunk) (st : AnthropicStreamState)
    (h : st.messageStartSent = true) : emitMessageStart c st = ([], st) := by
  simp [emitMessageStart, h]

/-- Equation for step 1 when `message_start` has not been sent yet. -/
theorem emitMessageStart_unsent (c : ChatCompletionChunk) (st : AnthropicStreamState)
    (h : st.messageStartSent = false) :
    emitMessageStart c st =
      ([AnthropicEvent.message_start c.id c.model], { st with messageStartSent := true }) := by
  simp [emitMessageStart, h]

/-- Step 1 preserves the invariant and leaves every other state field
unchanged; afterwards `message_start` has been sent. -/
theorem invariant_emitMessageStart (c : ChatCompletionChunk)
    (st : AnthropicStreamState) (evs : List AnthropicEvent)
    (h : streamInvariant evs st) :
    streamInvariant (evs ++ (emitMessageStart c st).1) (emitMessageStart c st).2 ∧
    (emitMessageStart c st).2.messageStartSent = true ∧
    (emitMessageStart c st).2.contentBlockIndex = st.contentBlockIndex ∧
    (emitMessageStart c st).2.contentBlockOpen = st.contentBlockOpen ∧
    (emitMessageStart c st).2.toolCalls = st.toolCalls ∧
    (emitMessageStart c st).2.usageTotals = st.usageTotals ∧
    (emitMessageStart c st).2.finished = st.finished := by
  obtain ⟨h1, h2, h3, h4, h5, h6, h7⟩ := h
  cases hms : st.messageStartSent with
  | true =>
    rw [emitMessageStart_sent c st hms]
    simp only [List.append_nil]
    exact ⟨⟨h1, h2, h3, h4, h5, h6, h7⟩, hms, by trivial, by trivial, by trivial, by trivial,
      by trivial⟩
  | false =>
    have hevs : evs = [] := h1 hms
    subst hevs
    have hopen : st.contentBlockOpen = false := by
      cases ho : st.contentBlockOpen with
      | false => rfl
      | true =>
        obtain ⟨_, hmk, _⟩ := h6 ho
        simp at hmk
    have hidx : st.contentBlockIndex = 0 := by
      by_contra hne
      have hpos : 0 < st.contentBlockIndex := Nat.pos_of_ne_zero hne
      have := h7 hopen 0 hpos
      simp at this
    rw [emitMessageStart_unsent c st hms]
    refine ⟨⟨?_, ?_, ?_, ?_, ?_, ?_, ?_⟩, rfl, rfl, rfl, rfl, rfl, rfl⟩
    · intro hcontra; simp at hcontra
    · intro _
      refine ⟨?_, c.id, c.model, [], rfl⟩
      simp [List.countP_cons, isMessageStart]
    · simp [List.countP_cons, isMessageDelta]
    · simp [List.countP_cons, isMessageStop]
    · intro i _
      constructor <;> simp [openCloseMarks]
    · intro hcontra
      rw [show ({ st with messageStartSent := true } : AnthropicStreamState).contentBlockOpen =
        st.contentBlockOpen from rfl, hopen] at hcontra
      cases hcontra
    · intro _ i hi
      rw [show ({ st with messageStartSent := true } : AnthropicStreamState).contentBlockIndex =
        st.contentBlockIndex from rfl, hidx] at hi
      cases hi

/-- Equation for step 2 when the chunk carries no text. -/
theorem emitTextEvents_none (c : ChatCompletionChunk) (st : AnthropicStreamState)
    (h : c.text = none) : emitTextEvents c st = ([], st) := by
  simp [emitTextEvents, h]

/-- Equation for step 2 with text and an open block. -/
theorem emitTextEvents_open (c : ChatCompletionChunk) (st : AnthropicStreamState)
    (text : String) (h : c.text = some text) (ho : st.contentBlockOpen = true) :
    emitTextEvents c st =
      ([AnthropicEvent.content_block_delta (st.contentBlockIndex - 1)
          (DeltaPayload.text_delta text)], st) := by
  simp [emitTextEvents, h, ho]

/-- Equation for step 2 with text and no open block. -/
theorem emitTextEvents_closed (c : ChatCompletionChunk) (st : AnthropicStreamState)
    (text : String) (h : c.text = some text) (ho : st.contentBlockOpen = false) :
    emitTextEvents c st =
      ([AnthropicEvent.content_block_start st.contentBlockIndex BlockKind.text,
        AnthropicEvent.content_block_delta st.contentBlockIndex (DeltaPayload.text_delta text)],
       { st with
          contentBlockIndex := st.contentBlockIndex + 1
          contentBlockOpen := true }) := by
  simp [emitTextEvents, h, ho]

/-- A lone `content_block_delta` leaves the open/close marks of every
index unchanged. -/
theorem openCloseMarks_delta (i j : Nat) (p : DeltaPayload) :
    openCloseMarks i [AnthropicEvent.content_block_delta j p] = [] := by
  simp [openCloseMarks]

/-- A `content_block_stop j` contributes no marks at a different index. -/
theorem openCloseMarks_stop_ne (i j : Nat) (h : j ≠ i) :
    openCloseMarks i [AnthropicEvent.content_block_stop j] = [] := by
  simp [openCloseMarks, h]

/-- A `content_block_stop i` contributes the single closing mark. -/
theorem openCloseMarks_stop_eq (i : Nat) :
    openCloseMarks i [AnthropicEvent.content_block_stop i] = [false] := by
  simp [openCloseMarks]

/-- A block start plus delta at a different index contributes no marks. -/
theorem openCloseMarks_start_delta_ne (i j : Nat) (k : BlockKind) (p : DeltaPayload)
    (h : j ≠ i) :
    openCloseMarks i [AnthropicEvent.content_block_start j k,
      AnthropicEvent.content_block_delta j p] = [] := by
  simp [openCloseMarks, h]

/-- A block start plus delta at index `i` contributes the opening mark. -/
theorem openCloseMarks_start_delta_eq (i : Nat) (k : BlockKind) (p : DeltaPayload) :
    openCloseMarks i [AnthropicEvent.content_block_start i k,
      AnthropicEvent.content_block_delta i p] = [true] := by
  simp [openCloseMarks]

/-- Step 2 preserves the invariant; the sent flag, tool-call map, usage
totals and finished flag are untouched. -/
theorem invariant_emitTextEvents (c : ChatCompletionChunk)
    (st : AnthropicStreamState) (evs : List AnthropicEvent)
    (hsent : st.messageStartSent = true) (h : streamInvariant evs st) :
    streamInvariant (evs ++ (emitTextEvents c st).1) (emitTextEvents c st).2 ∧
    (emitTextEvents c st).2.messageStartSent = true ∧
    (emitTextEvents c st).2.toolCalls = st.toolCalls ∧
    (emitTextEvents c st).2.usageTotals = st.usageTotals ∧
    (emitTextEvents c st).2.finished = st.finished := by
  obtain ⟨h1, h2, h3, h4, h5, h6, h7⟩ := h
  obtain ⟨hcnt, mid, mmodel, mrest, hrest⟩ := h2 hsent
  cases htext : c.text with
  | none =>
    rw [emitTextEvents_none c st htext]
    simp only [List.append_nil]
    exact ⟨⟨h1, fun _ => ⟨hcnt, mid, mmodel, mrest, hrest⟩, h3, h4, h5, h6, h7⟩, hsent,
      by trivial, by trivial, by trivial⟩
  | some text =>
    cases ho : st.contentBlockOpen with
    | true =>
      obtain ⟨hpos, hmark, hmklt⟩ := h6 ho
      rw [emitTextEvents_open c st text htext ho]
      dsimp only
      refine ⟨⟨?_, ?_, ?_, ?_, ?_, ?_, ?_⟩, hsent, rfl, rfl, rfl⟩
      · intro hc; rw [hc] at hsent; cases hsent
      · intro _
        refine ⟨?_, mid, mmodel, mrest ++ [AnthropicEvent.content_block_delta
          (st.contentBlockIndex - 1) (DeltaPayload.text_delta text)], ?_⟩
        · simp [List.countP_append, hcnt, isMessageStart]
        · rw [hrest]; rfl
      · simp [List.countP_append, h3, isMessageDelta]
      · simp [List.countP_append, h4, isMessageStop]
      · intro i hi
        have hne : st.contentBlockIndex - 1 ≠ i := by omega
        refine ⟨?_, ?_⟩
        · rw [openCloseMarks_append, (h5 i hi).1, openCloseMarks_delta]
          rfl
        · rw [appearsIn_append, (h5 i hi).2]
          simp [hne]
      · intro _
        refine ⟨hpos, ?_, ?_⟩
        · rw [openCloseMarks_append, hmark, openCloseMarks_delta]
          rfl
        · intro i hi
          rw [openCloseMarks_append, hmklt i hi, openCloseMarks_delta]
          rfl
      · intro hc; rw [ho] at hc; cases hc
    | false =>
      rw [emitTextEvents_closed c st text htext ho]
      dsimp only
      refine ⟨⟨?_, ?_, ?_, ?_, ?_, ?_, ?_⟩, hsent, rfl, rfl, rfl⟩
      · intro hc; rw [hc] at hsent; cases hsent
      · intro _
        refine ⟨?_, mid, mmodel, mrest ++ [AnthropicEvent.content_block_start
          st.contentBlockIndex BlockKind.text, AnthropicEvent.content_block_delta
          st.contentBlockIndex (DeltaPayload.text_delta text)], ?_⟩
        · simp [List.countP_append, List.countP_cons, hcnt, isMessageStart]
        · rw [hrest]; rfl
      · simp [List.countP_append, List.countP_cons, h3, isMessageDelta]
      · simp [List.countP_append, List.countP_cons, h4, isMessageStop]
      · intro i hi
        have hi1 : st.contentBlockIndex + 1 ≤ i := hi
        have hilow : st.contentBlockIndex ≤ i := by omega
        have hne : st.contentBlockIndex ≠ i := by omega
        refine ⟨?_, ?_⟩
        · rw [openCloseMarks_append, (h5 i hilow).1,
            openCloseMarks_start_delta_ne i st.contentBlockIndex BlockKind.text
              (DeltaPayload.text_delta text) hne]
          rfl
        · rw [appearsIn_append, (h5 i hilow).2]
          simp [hne]
      · intro _
        refine ⟨Nat.succ_pos _, ?_, ?_⟩
        · show openCloseMarks (st.contentBlockIndex + 1 - 1)
            (evs ++ [AnthropicEvent.content_block_start st.contentBlockIndex BlockKind.text,
              AnthropicEvent.content_block_delta st.contentBlockIndex
                (DeltaPayload.text_delta text)]) = [true]
          rw [Nat.add_sub_cancel, openCloseMarks_append, (h5 st.contentBlockIndex le_rfl).1,
            openCloseMarks_start_delta_eq]
          rfl
        · show ∀ i, i < st.contentBlockIndex + 1 - 1 →
            openCloseMarks i (evs ++
              [AnthropicEvent.content_block_start st.contentBlockIndex BlockKind.text,
                AnthropicEvent.content_block_delta st.contentBlockIndex
                  (DeltaPayload.text_delta text)]) = [true, false]
          rw [Nat.add_sub_cancel]
          intro i hi
          have hne : st.contentBlockIndex ≠ i := by omega
          rw [openCloseMarks_append, h7 ho i hi,
            openCloseMarks_start_delta_ne i st.contentBlockIndex BlockKind.text
              (DeltaPayload.text_delta text) hne]
          rfl
      · intro hc; cases hc

/-- Marks of a close-open-delta triple at an uninvolved index. -/
theorem openCloseMarks_triple_ne (i j1 j2 : Nat) (k : BlockKind) (p : DeltaPayload)
    (h1 : j1 ≠ i) (h2 : j2 ≠ i) :
    openCloseMarks i [AnthropicEvent.content_block_stop j1,
      AnthropicEvent.content_block_start j2 k,
      AnthropicEvent.content_block_delta j2 p] = [] := by
  simp [openCloseMarks, h1, h2]

/-- Marks of a close-open-delta triple at the closed index. -/
theorem openCloseMarks_triple_stop (i j2 : Nat) (k : BlockKind) (p : DeltaPayload)
    (h2 : j2 ≠ i) :
    openCloseMarks i [AnthropicEvent.content_block_stop i,
      AnthropicEvent.content_block_start j2 k,
      AnthropicEvent.content_block_delta j2 p] = [false] := by
  simp [openCloseMarks, h2]

/-- Marks of a close-open-delta triple at the newly opened index. -/
theorem openCloseMarks_triple_start (i j1 : Nat) (k : BlockKind) (p : DeltaPayload)
    (h1 : j1 ≠ i) :
    openCloseMarks i [AnthropicEvent.content_block_stop j1,
      AnthropicEvent.content_block_start i k,
      AnthropicEvent.content_block_delta i p] = [true] := by
  simp [openCloseMarks, h1]

/-- Step 3 for one fragment preserves the invariant; the sent flag, usage
totals and finished flag are untouched. -/
theorem invariant_handleFragment (f : ToolCallFragment) (st : AnthropicStreamState)
    (evs evs' : List AnthropicEvent) (st' : AnthropicStreamState)
    (hsent : st.messageStartSent = true) (h : streamInvariant evs st)
    (hok : handleFragment f st = Except.ok (evs', st')) :
    streamInvariant (evs ++ evs') st' ∧ st'.messageStartSent = true ∧
    st'.usageTotals = st.usageTotals ∧ st'.finished = st.finished := by
  obtain ⟨h1, h2, h3, h4, h5, h6, h7⟩ := h
  obtain ⟨hcnt, mid, mmodel, mrest, hrest⟩ := h2 hsent
  cases hlk : List.lookup f.index st.toolCalls with
  | none =>
    simp only [handleFragment, hlk] at hok
    cases ho : st.contentBlockOpen with
    | true =>
      obtain ⟨hpos, hmark, hmklt⟩ := h6 ho
      rw [ho] at hok
      simp only [if_true] at hok
      injection Except.ok.inj hok with he hs
      subst he
      subst hs
      dsimp only
      simp only [List.singleton_append]
      have hne1 : st.contentBlockIndex - 1 ≠ st.contentBlockIndex := by omega
      refine ⟨⟨?_, ?_, ?_, ?_, ?_, ?_, ?_⟩, hsent, by trivial, by trivial⟩
      · intro hc; rw [hc] at hsent; cases hsent
      · intro _
        refine ⟨?_, mid, mmodel, mrest ++ [AnthropicEvent.content_block_stop (st.contentBlockIndex - 1),
          AnthropicEvent.content_block_start st.contentBlockIndex
            (BlockKind.tool_use (f.id.getD "") (f.name.getD "")),
          AnthropicEvent.content_block_delta st.contentBlockIndex
            (DeltaPayload.input_json_delta f.arguments)], ?_⟩
        · simp [List.countP_append, List.countP_cons, hcnt, isMessageStart]
        · rw [hrest]; rfl
      · simp [List.countP_append, List.countP_cons, h3, isMessageDelta]
      · simp [List.countP_append, List.countP_cons, h4, isMessageStop]
      · intro i hi
        have hi1 : st.contentBlockIndex + 1 ≤ i := hi
        have hig : st.contentBlockIndex ≤ i := by omega
        have hne2 : st.contentBlockIndex - 1 ≠ i := by omega
        have hne3 : st.contentBlockIndex ≠ i := by omega
        refine ⟨?_, ?_⟩
        · rw [openCloseMarks_append, (h5 i hig).1,
            openCloseMarks_triple_ne i (st.contentBlockIndex - 1) st.contentBlockIndex
              (BlockKind.tool_use (f.id.getD "") (f.name.getD "")) _ hne2 hne3]
          rfl
        · rw [appearsIn_append, (h5 i hig).2]
          simp [hne2, hne3]
      · intro _
        refine ⟨Nat.succ_pos _, ?_, ?_⟩
        · show openCloseMarks (st.contentBlockIndex + 1 - 1) (evs ++ _) = [true]
          rw [Nat.add_sub_cancel, openCloseMarks_append, (h5 st.contentBlockIndex le_rfl).1,
            openCloseMarks_triple_start st.contentBlockIndex (st.contentBlockIndex - 1)
              (BlockKind.tool_use (f.id.getD "") (f.name.getD "")) _ hne1]
          rfl
        · show ∀ i, i < st.contentBlockIndex + 1 - 1 → _
          rw [Nat.add_sub_cancel]
          intro i hi
          by_cases hieq : i = st.contentBlockIndex - 1
          · subst hieq
            have hne3 : st.contentBlockIndex ≠ st.contentBlockIndex - 1 := by omega
            rw [openCloseMarks_append, hmark,
              openCloseMarks_triple_stop (st.contentBlockIndex - 1) st.contentBlockIndex
                (BlockKind.tool_use (f.id.getD "") (f.name.getD "")) _ hne3]
            rfl
          · have hlt : i < st.contentBlockIndex - 1 := by omega
            have hne2 : st.contentBlockIndex - 1 ≠ i := by omega
            have hne3 : st.contentBlockIndex ≠ i := by omega
            rw [openCloseMarks_append, hmklt i hlt,
              openCloseMarks_triple_ne i (st.contentBlockIndex - 1) st.contentBlockIndex
                (BlockKind.tool_use (f.id.getD "") (f.name.getD "")) _ hne2 hne3]
            rfl
      · intro hc; cases hc
    | false =>
      rw [ho] at hok
      simp only [Bool.false_eq_true, if_false, List.nil_append] at hok
      injection Except.ok.inj hok with he hs
      subst he
      subst hs
      dsimp only
      simp only [List.singleton_append]
      refine ⟨⟨?_, ?_, ?_, ?_, ?_, ?_, ?_⟩, hsent, by trivial, by trivial⟩
      · intro hc; rw [hc] at hsent; cases hsent
      · intro _
        refine ⟨?_, mid, mmodel, mrest ++ [AnthropicEvent.content_block_start st.contentBlockIndex
            (BlockKind.tool_use (f.id.getD "") (f.name.getD "")),
          AnthropicEvent.content_block_delta st.contentBlockIndex
            (DeltaPayload.input_json_delta f.arguments)], ?_⟩
        · simp [List.countP_append, List.countP_cons, hcnt, isMessageStart]
        · rw [hrest]; rfl
      · simp [List.countP_append, List.countP_cons, h3, isMessageDelta]
      · simp [List.countP_append, List.countP_cons, h4, isMessageStop]
      · intro i hi
        have hi1 : st.contentBlockIndex + 1 ≤ i := hi
        have hig : st.contentBlockIndex ≤ i := by omega
        have hne : st.contentBlockIndex ≠ i := by omega
        refine ⟨?_, ?_⟩
        · rw [openCloseMarks_append, (h5 i hig).1,
            openCloseMarks_start_delta_ne i st.contentBlockIndex
              (BlockKind.tool_use (f.id.getD "") (f.name.getD "")) _ hne]
          rfl
        · rw [appearsIn_append, (h5 i hig).2]
          simp [hne]
      · intro _
        refine ⟨Nat.succ_pos _, ?_, ?_⟩
        · show openCloseMarks (st.contentBlockIndex + 1 - 1) (evs ++ _) = [true]
          rw [Nat.add_sub_cancel, openCloseMarks_append, (h5 st.contentBlockIndex le_rfl).1,
            openCloseMarks_start_delta_eq]
          rfl
        · show ∀ i, i < st.contentBlockIndex + 1 - 1 → _
          rw [Nat.add_sub_cancel]
          intro i hi
          have hne : st.contentBlockIndex ≠ i := by omega
          rw [openCloseMarks_append, h7 ho i hi,
            openCloseMarks_start_delta_ne i st.contentBlockIndex
              (BlockKind.tool_use (f.id.getD "") (f.name.getD "")) _ hne]
          rfl
      · intro hc; cases hc
  | some acc =>
    simp only [handleFragment, hlk] at hok
    split at hok
    case isTrue hcond =>
      obtain ⟨ho, hidx⟩ := hcond
      injection Except.ok.inj hok with he hs
      subst he
      subst hs
      dsimp only
      simp only [List.singleton_append]
      have hblk : acc.blockIndex = st.contentBlockIndex - 1 := by omega
      refine ⟨⟨?_, ?_, ?_, ?_, ?_, ?_, ?_⟩, hsent, by trivial, by trivial⟩
      · intro hc; rw [hc] at hsent; cases hsent
      · intro _
        refine ⟨?_, mid, mmodel, mrest ++ [AnthropicEvent.content_block_delta acc.blockIndex
            (DeltaPayload.input_json_delta f.arguments)], ?_⟩
        · simp [List.countP_append, List.countP_cons, hcnt, isMessageStart]
        · rw [hrest]; rfl
      · simp [List.countP_append, List.countP_cons, h3, isMessageDelta]
      · simp [List.countP_append, List.countP_cons, h4, isMessageStop]
      · intro i hi
        have hi1 : st.contentBlockIndex ≤ i := hi
        have hne : acc.blockIndex ≠ i := by omega
        refine ⟨?_, ?_⟩
        · rw [openCloseMarks_append, (h5 i hi).1, openCloseMarks_delta]
          rfl
        · rw [appearsIn_append, (h5 i hi).2]
          simp [hne]
      · intro _
        obtain ⟨hpos, hmark, hmklt⟩ := h6 ho
        refine ⟨hpos, ?_, ?_⟩
        · rw [openCloseMarks_append, hmark, openCloseMarks_delta]
          rfl
        · intro i hi
          rw [openCloseMarks_append, hmklt i hi, openCloseMarks_delta]
          rfl
      · intro hc
        have hc' : st.contentBlockOpen = false := hc
        rw [ho] at hc'
        cases hc'
    case isFalse hcond =>
      cases hok

/-- Step 3 over a whole fragment list preserves the invariant; the sent
flag, usage totals and finished flag are untouched. -/
theorem invariant_handleFragments :
    ∀ (fs : List ToolCallFragment) (st : AnthropicStreamState)
      (evs evs' : List AnthropicEvent) (st' : AnthropicStreamState),
      st.messageStartSent = true → streamInvariant evs st →
      handleFragments fs st = Except.ok (evs', st') →
      streamInvariant (evs ++ evs') st' ∧ st'.messageStartSent = true ∧
      st'.usageTotals = st.usageTotals ∧ st'.finished = st.finished := by
  intro fs
  induction fs with
  | nil =>
    intro st evs evs' st' hsent h hok
    simp only [handleFragments] at hok
    injection Except.ok.inj hok with he hs
    subst he
    subst hs
    simp only [List.append_nil]
    exact ⟨h, hsent, by trivial, by trivial⟩
  | cons f fs ih =>
    intro st evs evs' st' hsent h hok
    simp only [handleFragments] at hok
    cases hf : handleFragment f st with
    | error e => rw [hf] at hok; cases hok
    | ok r =>
      obtain ⟨evs1, st1⟩ := r
      rw [hf] at hok
      dsimp only at hok
      cases hrest : handleFragments fs st1 with
      | error e => rw [hrest] at hok; cases hok
      | ok r2 =>
        obtain ⟨evs2, st2⟩ := r2
        rw [hrest] at hok
        dsimp only at hok
        injection Except.ok.inj hok with he hs
        subst he
        subst hs
        obtain ⟨hinv1, hsent1, hu1, hf1⟩ :=
          invariant_handleFragment f st evs evs1 st1 hsent h hf
        obtain ⟨hinv2, hsent2, hu2, hf2⟩ :=
          ih st1 (evs ++ evs1) evs2 st2 hsent1 hinv1 hrest
        rw [List.append_assoc] at hinv2
        exact ⟨hinv2, hsent2, hu2.trans hu1, hf2.trans hf1⟩

/-- Step 4 (usage retention) does not touch any field the invariant
reads, nor the sent and finished flags. -/
theorem invariant_retainUsage (c : ChatCompletionChunk) (st : AnthropicStreamState)
    (evs : List AnthropicEvent) (h : streamInvariant evs st) :
    streamInvariant evs (retainUsage c st) ∧
    (retainUsage c st).messageStartSent = st.messageStartSent ∧
    (retainUsage c st).contentBlockIndex = st.contentBlockIndex ∧
    (retainUsage c st).contentBlockOpen = st.contentBlockOpen ∧
    (retainUsage c st).finished = st.finished := by
  cases hu : c.usage with
  | none => simp only [retainUsage, hu]; exact ⟨h, by trivial, by trivial, by trivial, by trivial⟩
  | some u =>
    simp only [retainUsage, hu]
    exact ⟨streamInvariant_of_fields evs st _ rfl rfl rfl h, by trivial, by trivial, by trivial, by trivial⟩

/-- Equation for step 5 when the chunk carries no finish reason. -/
theorem emitFinishEvents_none (c : ChatCompletionChunk) (st : AnthropicStreamState)
    (h : c.finish_reason = none) : emitFinishEvents c st = ([], st) := by
  simp [emitFinishEvents, h]

/-- Step 5 on a finish-reason chunk closes the open block if any, emits
`message_delta` then `message_stop`, and produces a full event sequence
satisfying the claimed ordering law; the resulting state is finished. -/
theorem finish_event_ordering (c : ChatCompletionChunk) (st : AnthropicStreamState)
    (evs : List AnthropicEvent) (reason : String)
    (hr : c.finish_reason = some reason)
    (hsent : st.messageStartSent = true) (h : streamInvariant evs st) :
    anthropicEventOrdering (evs ++ (emitFinishEvents c st).1) ∧
    (emitFinishEvents c st).2.finished = true := by
  obtain ⟨h1, h2, h3, h4, h5, h6, h7⟩ := h
  obtain ⟨hcnt, mid, mmodel, mrest, hrest⟩ := h2 hsent
  cases ho : st.contentBlockOpen with
  | true =>
    obtain ⟨hpos, hmark, hmklt⟩ := h6 ho
    have heq : emitFinishEvents c st =
        ([AnthropicEvent.content_block_stop (st.contentBlockIndex - 1),
          AnthropicEvent.message_delta (mapStopReason reason) st.usageTotals,
          AnthropicEvent.message_stop],
         { st with contentBlockOpen := false, finished := true }) := by
      simp [emitFinishEvents, hr, ho]
    rw [heq]
    dsimp only
    refine ⟨⟨?_, ⟨mid, mmodel, ?_, ?_⟩, ?_, ?_, ?_, ?_⟩, rfl⟩
    · simp [List.countP_append, List.countP_cons, hcnt, isMessageStart]
    · exact mrest ++ [AnthropicEvent.content_block_stop (st.contentBlockIndex - 1),
        AnthropicEvent.message_delta (mapStopReason reason) st.usageTotals,
        AnthropicEvent.message_stop]
    · rw [hrest]; rfl
    · simp [List.countP_append, List.countP_cons, h3, isMessageDelta]
    · simp [List.countP_append, List.countP_cons, h4, isMessageStop]
    · refine ⟨evs ++ [AnthropicEvent.content_block_stop (st.contentBlockIndex - 1)],
        mapStopReason reason, st.usageTotals, ?_⟩
      simp
    · intro i happ
      have hlt : i < st.contentBlockIndex := by
        by_contra hge
        have hge' : st.contentBlockIndex ≤ i := by omega
        rw [appearsIn_append, (h5 i hge').2] at happ
        have hne2 : st.contentBlockIndex - 1 ≠ i := by omega
        simp [hne2] at happ
      by_cases hieq : i = st.contentBlockIndex - 1
      · subst hieq
        rw [openCloseMarks_append, hmark]
        rw [show openCloseMarks (st.contentBlockIndex - 1)
            [AnthropicEvent.content_block_stop (st.contentBlockIndex - 1),
              AnthropicEvent.message_delta (mapStopReason reason) st.usageTotals,
              AnthropicEvent.message_stop] = [false] from by simp [openCloseMarks]]
        rfl
      · have hlt2 : i < st.contentBlockIndex - 1 := by omega
        have hne2 : st.contentBlockIndex - 1 ≠ i := by omega
        rw [openCloseMarks_append, hmklt i hlt2]
        rw [show openCloseMarks i
            [AnthropicEvent.content_block_stop (st.contentBlockIndex - 1),
              AnthropicEvent.message_delta (mapStopReason reason) st.usageTotals,
              AnthropicEvent.message_stop] = [] from by simp [openCloseMarks, hne2]]
        rfl
  | false =>
    have heq : emitFinishEvents c st =
        ([AnthropicEvent.message_delta (mapStopReason reason) st.usageTotals,
          AnthropicEvent.message_stop],
         { st with contentBlockOpen := false, finished := true }) := by
      simp [emitFinishEvents, hr, ho]
    rw [heq]
    dsimp only
    refine ⟨⟨?_, ⟨mid, mmodel, ?_, ?_⟩, ?_, ?_, ?_, ?_⟩, rfl⟩
    · simp [List.countP_append, List.countP_cons, hcnt, isMessageStart]
    · exact mrest ++ [AnthropicEvent.message_delta (mapStopReason reason) st.usageTotals,
        AnthropicEvent.message_stop]
    · rw [hrest]; rfl
    · simp [List.countP_append, List.countP_cons, h3, isMessageDelta]
    · simp [List.countP_append, List.countP_cons, h4, isMessageStop]
    · exact ⟨evs, mapStopReason reason, st.usageTotals, rfl⟩
    · intro i happ
      have hlt : i < st.contentBlockIndex := by
        by_contra hge
        have hge' : st.contentBlockIndex ≤ i := by omega
        rw [appearsIn_append, (h5 i hge').2] at happ
        simp at happ
      rw [openCloseMarks_append, h7 ho i hlt]
      rw [show openCloseMarks i
          [AnthropicEvent.message_delta (mapStopReason reason) st.usageTotals,
            AnthropicEvent.message_stop] = [] from by simp [openCloseMarks]]
      rfl

/-- A chunk arriving after the terminal state is a protocol violation. -/
theorem translate_finished_error (c : ChatCompletionChunk) (st : AnthropicStreamState)
    (h : st.finished = true) :
    translateChunkToAnthropicEvents c st =
      Except.error (TranslationError.ProtocolViolation "chunk received after message_stop") := by
  simp [translateChunkToAnthropicEvents, h]

/-- One translated chunk preserves the invariant while the exchange is
unfinished, and establishes the full ordering law the moment the exchange
reaches the finished state. -/
theorem invariant_translateChunk (c : ChatCompletionChunk) (st : AnthropicStreamState)
    (evs evs' : List AnthropicEvent) (st' : AnthropicStreamState)
    (h : streamInvariant evs st) (hfin : st.finished = false)
    (hok : translateChunkToAnthropicEvents c st = Except.ok (evs', st')) :
    (st'.finished = false → streamInvariant (evs ++ evs') st') ∧
    (st'.finished = true → anthropicEventOrdering (evs ++ evs')) := by
  simp only [translateChunkToAnthropicEvents, hfin, Bool.false_eq_true, if_false] at hok
  cases hfr : handleFragments c.fragments (emitTextEvents c (emitMessageStart c st).2).2 with
  | error e => rw [hfr] at hok; cases hok
  | ok r3 =>
    obtain ⟨e3, st3⟩ := r3
    rw [hfr] at hok
    dsimp only at hok
    injection Except.ok.inj hok with he hs
    obtain ⟨hinv1, hsent1, hidx1, hopen1, htc1, hu1, hfin1⟩ :=
      invariant_emitMessageStart c st evs h
    obtain ⟨hinv2, hsent2, htc2, hu2, hfin2⟩ :=
      invariant_emitTextEvents c (emitMessageStart c st).2
        (evs ++ (emitMessageStart c st).1) hsent1 hinv1
    obtain ⟨hinv3, hsent3, hu3, hfin3⟩ :=
      invariant_handleFragments c.fragments (emitTextEvents c (emitMessageStart c st).2).2
        ((evs ++ (emitMessageStart c st).1) ++ (emitTextEvents c (emitMessageStart c st).2).1)
        e3 st3 hsent2 hinv2 hfr
    obtain ⟨hinv4, hms4, hidx4, hopen4, hfin4⟩ := invariant_retainUsage c st3 _ hinv3
    have hfin3' : st3.finished = false := by rw [hfin3, hfin2, hfin1, hfin]
    have hfin4' : (retainUsage c st3).finished = false := by rw [hfin4, hfin3']
    have hsent4 : (retainUsage c st3).messageStartSent = true := by rw [hms4, hsent3]
    cases hr : c.finish_reason with
    | none =>
      rw [emitFinishEvents_none c (retainUsage c st3) hr] at he hs
      dsimp only at he hs
      subst he
      subst hs
      constructor
      · intro _
        simpa [List.append_assoc] using hinv4
      · intro hcontra
        rw [hfin4'] at hcontra
        cases hcontra
    | some reason =>
      obtain ⟨hord, hfin5⟩ :=
        finish_event_ordering c (retainUsage c st3)
          (((evs ++ (emitMessageStart c st).1) ++
            (emitTextEvents c (emitMessageStart c st).2).1) ++ e3) reason hr hsent4 hinv4
      subst he
      subst hs
      constructor
      · intro hcontra
        rw [hfin5] at hcontra
        cases hcontra
      · intro _
        simpa [List.append_assoc] using hord

/-- The chunk fold preserves the invariant while unfinished and yields the
ordering law on reaching the finished state. -/
theorem invariant_processChunks :
    ∀ (cs : List ChatCompletionChunk) (evs : List AnthropicEvent)
      (st : AnthropicStreamState) (out : List AnthropicEvent × AnthropicStreamState),
      streamInvariant evs st → st.finished = false →
      processChunks cs st = Except.ok out →
      (out.2.finished = false → streamInvariant (evs ++ out.1) out.2) ∧
      (out.2.finished = true → anthropicEventOrdering (evs ++ out.1)) := by
  intro cs
  induction cs with
  | nil =>
    intro evs st out h hfin hok
    obtain ⟨oevs, ost⟩ := out
    simp only [processChunks] at hok
    injection Except.ok.inj hok with he hs
    subst he
    subst hs
    refine ⟨fun _ => by simpa using h, fun hc => ?_⟩
    rw [hfin] at hc
    cases hc
  | cons c cs ih =>
    intro evs st out h hfin hok
    obtain ⟨oevs, ost⟩ := out
    simp only [processChunks] at hok
    cases htr : translateChunkToAnthropicEvents c st with
    | error e => rw [htr] at hok; cases hok
    | ok r =>
      obtain ⟨evs1, st1⟩ := r
      rw [htr] at hok
      dsimp only at hok
      cases hrest : processChunks cs st1 with
      | error e => rw [hrest] at hok; cases hok
      | ok out1 =>
        obtain ⟨evs2, st2⟩ := out1
        rw [hrest] at hok
        dsimp only at hok
        injection Except.ok.inj hok with he hs
        subst he
        subst hs
        have hc := invariant_translateChunk c st evs evs1 st1 h hfin htr
        cases hf1 : st1.finished with
        | false =>
          have hinv1 := hc.1 hf1
          have hrec := ih (evs ++ evs1) st1 (evs2, st2) hinv1 hf1 hrest
          dsimp only at hrec
          constructor
          · intro hf2
            have hr2 := hrec.1 hf2
            rw [List.append_assoc] at hr2
            exact hr2
          · intro hf2
            have hr2 := hrec.2 hf2
            rw [List.append_assoc] at hr2
            exact hr2
        | true =>
          cases cs with
          | nil =>
            simp only [processChunks] at hrest
            injection Except.ok.inj hrest with he2 hs2
            subst he2
            subst hs2
            constructor
            · intro hf2
              rw [hf1] at hf2
              cases hf2
            · intro _
              simpa [List.append_assoc] using hc.2 hf1
          | cons c2 cs2 =>
            exfalso
            rw [show processChunks (c2 :: cs2) st1 = Except.error
              (TranslationError.ProtocolViolation "chunk received after message_stop") from by
                simp [processChunks, translate_finished_error c2 st1 hf1]] at hrest
            cases hrest

/-- C1 (amended): for every sequence of ChatChunks processed by one
streaming exchange (fresh TranslationState, chunks fed in arrival order)
whose processing succeeds and reaches the finished state — i.e. whose last
chunk carries a finish reason — the concatenated emitted AnthropicEvent
sequence contains exactly one `message_start` and it is the first event,
every content-block index that appears is opened by exactly one
`content_block_start` before being closed by exactly one
`content_block_stop`, and the sequence contains exactly one
`message_stop`, which is the last event and directly follows exactly one
`message_delta`. -/
theorem anthropic_stream_event_ordering (cs : List ChatCompletionChunk)
    (evs : List AnthropicEvent) (st : AnthropicStreamState)
    (h : processChunks cs freshState = Except.ok (evs, st))
    (hfin : st.finished = true) : anthropicEventOrdering evs := by
  have hmain :=
    invariant_processChunks cs [] freshState (evs, st) streamInvariant_fresh rfl h
  simpa using hmain.2 hfin

/-- Witness for C1 on the spec's concrete scenario: a text chunk followed
by a finish chunk with usage (5, 2) yields the six-event sequence, which
satisfies the ordering law. -/
theorem anthropic_stream_event_ordering_witness :
    anthropicEventOrdering
      [AnthropicEvent.message_start "msg_1" "gpt",
       AnthropicEvent.content_block_start 0 BlockKind.text,
       AnthropicEvent.content_block_delta 0 (DeltaPayload.text_delta "Hi"),
       AnthropicEvent.content_block_stop 0,
       AnthropicEvent.message_delta "end_turn" ⟨5, 2⟩,
       AnthropicEvent.message_stop] :=
  anthropic_stream_event_ordering
    [⟨"msg_1", "gpt", some ⟨some "Hi", []⟩, none, none⟩,
     ⟨"msg_1", "gpt", none, some "stop", some ⟨5, 2⟩⟩]
    [AnthropicEvent.message_start "msg_1" "gpt",
     AnthropicEvent.content_block_start 0 BlockKind.text,
     AnthropicEvent.content_block_delta 0 (DeltaPayload.text_delta "Hi"),
     AnthropicEvent.content_block_stop 0,
     AnthropicEvent.message_delta "end_turn" ⟨5, 2⟩,
     AnthropicEvent.message_stop]
    ⟨true, 1, false, [], ⟨5, 2⟩, true⟩ rfl rfl

/-- Counterexample to C1 as stated: a one-chunk exchange whose only chunk
is a keep-alive (no delta, no finish reason) emits just `message_start`
and in particular no `message_stop`, so the claimed "exactly one
message_stop" fails for that processed sequence. -/
theorem anthropic_stream_event_ordering_counterexample :
    processChunks [⟨"m", "g", none, none, none⟩] freshState =
      Except.ok ([AnthropicEvent.message_start "m" "g"],
        ⟨true, 0, false, [], ⟨0, 0⟩, false⟩) ∧
    ¬(([AnthropicEvent.message_start "m" "g"] : List AnthropicEvent).countP
        isMessageStop = 1) := by
  constructor
  · rfl
  · decide

/-! ### C3: per-chunk write ordering of the Anthropic-surface drive loop -/

/-- The state after translating one chunk (identity when translation
fails; only used along successful runs). -/
def translationStep (st : AnthropicStreamState) (c : ChatCompletionChunk) :
    AnthropicStreamState :=
  match translateChunkToAnthropicEvents c st with
  | Except.ok r => r.2
  | Except.error _ => st

/-- The translation state reached after feeding a chunk prefix. -/
def stateAfterChunks (cs : List ChatCompletionChunk) (st : AnthropicStreamState) :
    AnthropicStreamState :=
  cs.foldl translationStep st

/-- The events the translator emits for the n-th chunk of a sequence,
starting from state `st`: chunk n translated against the state built from
chunks 0..n-1. -/
def chunkEventsAt (cs : List ChatCompletionChunk) (st : AnthropicStreamState)
    (n : Nat) : List AnthropicEvent :=
  match cs[n]? with
  | some c =>
    match translateChunkToAnthropicEvents c (stateAfterChunks (cs.take n) st) with
    | Except.ok r => r.1
    | Except.error _ => []
  | none => []

/-- Shifting `chunkEventsAt` across the head chunk. -/
theorem chunkEventsAt_succ (c : ChatCompletionChunk) (cs : List ChatCompletionChunk)
    (st : AnthropicStreamState) (n : Nat) :
    chunkEventsAt (c :: cs) st (n + 1) = chunkEventsAt cs (translationStep st c) n := by
  simp only [chunkEventsAt, List.getElem?_cons_succ, List.take_succ_cons, stateAfterChunks,
    List.foldl_cons]

/-- On a successfully translating chunk sequence, the drive loop's trace
is exactly: consume chunk n, then write each of chunk n's translated
events in order, before consuming chunk n+1 — for every n. -/
theorem messagesLoop_trace_canonical :
    ∀ (cs : List ChatCompletionChunk) (st : AnthropicStreamState) (k : Nat) (t : Usage)
      (out : List AnthropicEvent × AnthropicStreamState),
      processChunks cs st = Except.ok out →
      (messagesStreamLoop k (cs.map RawEvent.payload) st t).1 =
        ((List.range cs.length).map fun n =>
          Action.consumeChunk (k + n) ::
            (chunkEventsAt cs st n).map Action.writeEvent).flatten := by
  intro cs
  induction cs with
  | nil => intro st k t out hok; rfl
  | cons c cs ih =>
    intro st k t out hok
    obtain ⟨oevs, ost⟩ := out
    simp only [processChunks] at hok
    cases htr : translateChunkToAnthropicEvents c st with
    | error e => rw [htr] at hok; cases hok
    | ok r =>
      obtain ⟨evs1, st1⟩ := r
      rw [htr] at hok
      dsimp only at hok
      cases hrest : processChunks cs st1 with
      | error e => rw [hrest] at hok; cases hok
      | ok out1 =>
        have hstep : translationStep st c = st1 := by
          simp [translationStep, htr]
        have hev0 : chunkEventsAt (c :: cs) st 0 = evs1 := by
          simp [chunkEventsAt, stateAfterChunks, htr]
        simp only [List.map_cons, messagesStreamLoop, htr]
        rw [List.length_cons, List.range_succ_eq_map, List.map_cons, List.flatten_cons,
          List.map_map]
        rw [List.map_congr_left (fun n _ => by
          rw [Function.comp_apply, chunkEventsAt_succ c cs st n, hstep,
            show k + Nat.succ n = k + 1 + n from by omega] :
          ∀ n ∈ List.range cs.length, _ = (fun m => Action.consumeChunk (k + 1 + m) ::
            (chunkEventsAt cs st1 m).map Action.writeEvent) n)]
        rw [← ih st1 (k + 1) (match c.usage with | some u => u | none => t) out1 hrest]
        rw [hev0, Nat.add_zero]
        rfl

/-- C3: on the Anthropic surface, upstream chunks are consumed strictly
in arrival order, and the drive loop's action trace is exactly the
in-order interleaving: for each chunk n, the consume action followed by a
write of every AnthropicEvent the translator emits for chunk n, all
before chunk n+1 is consumed; no event is reordered or batched across
chunks. -/
theorem stream_writes_follow_chunk_order (cs : List ChatCompletionChunk) (t : Usage)
    (out : List AnthropicEvent × AnthropicStreamState)
    (h : processChunks cs freshState = Except.ok out) :
    (messagesStreamLoop 0 (cs.map RawEvent.payload) freshState t).1 =
      ((List.range cs.length).map fun n =>
        Action.consumeChunk n ::
          (chunkEventsAt cs freshState n).map Action.writeEvent).flatten := by
  have hmain := messagesLoop_trace_canonical cs freshState 0 t out h
  simpa using hmain

/-- Witness for C3 on the concrete two-chunk exchange: the loop trace is
exactly consume 0, the first chunk's three events, consume 1, the second
chunk's three events. -/
theorem stream_writes_follow_chunk_order_witness :
    (messagesStreamLoop 0
        [RawEvent.payload ⟨"msg_1", "gpt", some ⟨some "Hi", []⟩, none, none⟩,
         RawEvent.payload ⟨"msg_1", "gpt", none, some "stop", some ⟨5, 2⟩⟩]
        freshState ⟨0, 0⟩).1 =
      ((List.range 2).map fun n =>
        Action.consumeChunk n ::
          (chunkEventsAt
            [⟨"msg_1", "gpt", some ⟨some "Hi", []⟩, none, none⟩,
             ⟨"msg_1", "gpt", none, some "stop", some ⟨5, 2⟩⟩]
            freshState n).map Action.writeEvent).flatten :=
  stream_writes_follow_chunk_order
    [⟨"msg_1", "gpt", some ⟨some "Hi", []⟩, none, none⟩,
     ⟨"msg_1", "gpt", none, some "stop", some ⟨5, 2⟩⟩]
    ⟨0, 0⟩
    ([AnthropicEvent.message_start "msg_1" "gpt",
      AnthropicEvent.content_block_start 0 BlockKind.text,
      AnthropicEvent.content_block_delta 0 (DeltaPayload.text_delta "Hi"),
      AnthropicEvent.content_block_stop 0,
      AnthropicEvent.message_delta "end_turn" ⟨5, 2⟩,
      AnthropicEvent.message_stop],
     ⟨true, 1, false, [], ⟨5, 2⟩, true⟩) rfl

end CopilotApi
